import Mathlib

/-
Verification of r2/r2/lib/inventory.py (reddit advertising inventory estimates).

Modelling conventions for the shallow embedding:
- Python datetime/date values are modelled as integers counting days, so that
  date + timedelta(i) is date + i and (end - start).days is end - start.
  The helper to_date strips the time of day, which the integer model already does.
- Python dicts are modelled as association lists in insertion order; assignment
  d[k] = v overwrites the first entry with key k or appends a new entry at the
  end, exactly as a dict preserves its key position on overwrite. Reads through
  defaultdict are lookups with a default; reads through a plain dict that can
  raise KeyError are modelled in the Except monad, with the offending key as the
  error payload.
- The external stores (promotion weights table, campaign store, bid store, the
  PromoMetrics cache and the traffic table) are passed in explicitly as lists of
  rows inside an Env record; the query filters from the source are applied to
  those lists.
- Python 2 integer division of ints is floor division, modelled by Int.fdiv.
-/

/-- The sentinel meaning no transaction (NO_TRANSACTION in r2.models). Only its
distinguishability from real transaction ids matters here. -/
def NO_TRANSACTION : Int := 0

/-- INVENTORY_FACTOR = 1.00 from the source, as an exact rational. -/
def INVENTORY_FACTOR : ℚ := 1

/-- Python int() truncation toward zero, applied to an exact rational: the
numerator divided by the positive denominator with Int.tdiv, which rounds
toward zero. -/
def pyInt (q : ℚ) : Int := Int.tdiv q.num (q.den : Int)

/-- A PromotionWeights row: a calendar join row linking a campaign (promo_idx)
to a date on a site. -/
structure PromotionWeight where
  sr_name : String
  date : Int
  promo_idx : Int
  deriving DecidableEq

/-- A PromoCampaign record with the fields used by inventory.py. -/
structure Campaign where
  _id : Int
  sr_name : String
  start_date : Int
  end_date : Int
  ndays : Int
  impressions : Int
  trans_id : Int
  deriving DecidableEq

/-- A Bid (transaction) record. Modelled from the spec: the bid store is
external; a transaction has a state queryable as authorized or charged, exposed
by the methods is_auth and is_charged. -/
structure Bid where
  transaction : Int
  authed : Bool
  charged : Bool
  deriving DecidableEq

def Bid.is_auth (b : Bid) : Bool := b.authed

def Bid.is_charged (b : Bid) : Bool := b.charged

/-- A site argument: either the distinguished DefaultSR (front page) or an
ordinary subreddit carrying its name. -/
inductive SR where
  | defaultSR : SR
  | named (name : String) : SR
  deriving DecidableEq

/-- A row of traffic.PageviewsBySubredditAndPath. The srpath string is kept as
a list of characters to reason about its suffix structure. -/
structure TrafficRow where
  srpath : List Char
  interval : String
  date : Int
  pageview_count : Int
  deriving DecidableEq

/-- The external stores an invocation reads, passed explicitly. defaultSRName
is DefaultSR.name. Modelled from the spec: DefaultSR lives in
r2.models.subreddit (not part of this module); the front page is a site
identified by a name string like any other. -/
structure Env where
  promoMetrics : List (String × Int)
  promotionWeights : List PromotionWeight
  campaigns : List Campaign
  bids : List Bid
  defaultSRName : String
  deriving DecidableEq

/-- The lookup key used for a site in the PromotionWeights query
(line 101: the empty string for DefaultSR, else the name). -/
def srKey : SR → String
  | SR.defaultSR => ""
  | SR.named n => n

/-- The name attribute of a site object; DefaultSR.name is the configured
front page name. -/
def srName (env : Env) : SR → String
  | SR.defaultSR => env.defaultSRName
  | SR.named n => n

/- Association list dictionaries in insertion order. -/

/-- Dictionary read: the value at the first entry with the given key. -/
def dlookup {κ α : Type} [DecidableEq κ] : List (κ × α) → κ → Option α
  | [], _ => none
  | p :: ps, k => if p.1 = k then some p.2 else dlookup ps k

/-- Combine-or-append update: if the key is present its value is combined in
place with f, otherwise the pair is appended at the end. With f projecting to
the new value this is dict assignment; with f = min it is a running group-by
minimum; with f = append it is defaultdict(list) appending. -/
def dupsert {κ α : Type} [DecidableEq κ] (f : α → α → α) : List (κ × α) → κ → α → List (κ × α)
  | [], k, v => [(k, v)]
  | p :: ps, k, v => if p.1 = k then (p.1, f p.2 v) :: ps else p :: dupsert f ps k v

/-- Python dict assignment d[k] = v. -/
def dinsert {κ α : Type} [DecidableEq κ] (l : List (κ × α)) (k : κ) (v : α) : List (κ × α) :=
  dupsert (fun _ w => w) l k v

theorem dlookup_dupsert {κ α : Type} [DecidableEq κ] (f : α → α → α)
    (l : List (κ × α)) (k : κ) (v : α) (k' : κ) :
    dlookup (dupsert f l k v) k' =
      if k' = k then
        some (match dlookup l k with
              | some w => f w v
              | none => v)
      else dlookup l k' := by
  induction l with
  | nil =>
    by_cases h : k' = k <;> simp [dupsert, dlookup, h]
    intro h'
    exact absurd h'.symm h
  | cons p ps ih =>
    by_cases hpk : p.1 = k
    · by_cases hk : k' = k
      · simp [dupsert, dlookup, hpk, hk]
      · have hk2 : ¬ k = k' := fun h => hk h.symm
        simp [dupsert, dlookup, hpk, hk, hk2]
    · by_cases hpk' : p.1 = k'
      · have hk : ¬ k' = k := by
          intro h; rw [h] at hpk'; exact hpk hpk'
        simp [dupsert, dlookup, hpk, hpk', hk]
      · simp [dupsert, dlookup, hpk, hpk', ih]

theorem dlookup_dinsert {κ α : Type} [DecidableEq κ]
    (l : List (κ × α)) (k : κ) (v : α) (k' : κ) :
    dlookup (dinsert l k v) k' = if k' = k then some v else dlookup l k' := by
  rw [dinsert, dlookup_dupsert]
  by_cases h : k' = k <;> simp [h]
  cases dlookup l k <;> rfl

theorem dlookup_mem {κ α : Type} [DecidableEq κ] {l : List (κ × α)} {k : κ} {v : α}
    (h : dlookup l k = some v) : (k, v) ∈ l := by
  induction l with
  | nil => simp [dlookup] at h
  | cons p ps ih =>
    obtain ⟨k0, v0⟩ := p
    by_cases hp : k0 = k
    · simp only [dlookup, hp, if_pos rfl] at h
      cases h
      subst hp
      exact List.mem_cons_self _ _
    · simp only [dlookup, hp, if_false, if_neg hp] at h
      exact List.mem_cons_of_mem _ (ih h)

theorem dlookup_isSome_iff {κ α : Type} [DecidableEq κ] (l : List (κ × α)) (k : κ) :
    (dlookup l k).isSome ↔ k ∈ l.map Prod.fst := by
  induction l with
  | nil => simp [dlookup]
  | cons p ps ih =>
    by_cases hp : p.1 = k
    · simp [dlookup, hp]
    · have : ¬ k = p.1 := fun h => hp h.symm
      simp [dlookup, hp, ih, this]

/-- The keys of an association list are pairwise distinct. Holds for every
dictionary built by repeated assignment from the empty dict. -/
def NodupKeys {κ α : Type} (l : List (κ × α)) : Prop := (l.map Prod.fst).Nodup

theorem mem_keys_dupsert {κ α : Type} [DecidableEq κ] (f : α → α → α)
    (l : List (κ × α)) (k : κ) (v : α) (m : κ) :
    m ∈ (dupsert f l k v).map Prod.fst ↔ m = k ∨ m ∈ l.map Prod.fst := by
  induction l with
  | nil => simp [dupsert]
  | cons p ps ih =>
    by_cases hp : p.1 = k
    · subst hp
      simp [dupsert]
    · simp only [dupsert, if_neg hp, List.map_cons, List.mem_cons, ih]
      tauto

theorem nodupKeys_dupsert {κ α : Type} [DecidableEq κ] (f : α → α → α)
    (l : List (κ × α)) (k : κ) (v : α) :
    NodupKeys l → NodupKeys (dupsert f l k v) := by
  induction l with
  | nil =>
    intro _
    simp [NodupKeys, dupsert]
  | cons p ps ih =>
    intro h
    rw [NodupKeys, List.map_cons, List.nodup_cons] at h
    by_cases hp : p.1 = k
    · rw [NodupKeys, dupsert, if_pos hp, List.map_cons, List.nodup_cons]
      exact ⟨h.1, h.2⟩
    · rw [NodupKeys, dupsert, if_neg hp, List.map_cons, List.nodup_cons]
      refine ⟨?_, ih h.2⟩
      intro hmem
      rw [mem_keys_dupsert] at hmem
      rcases hmem with h1 | h2
      · exact hp h1
      · exact h.1 h2

theorem nodupKeys_dinsert {κ α : Type} [DecidableEq κ]
    (l : List (κ × α)) (k : κ) (v : α) (h : NodupKeys l) :
    NodupKeys (dinsert l k v) := nodupKeys_dupsert _ l k v h

theorem dlookup_filter {κ α : Type} [DecidableEq κ] (Q : κ × α → Bool)
    (l : List (κ × α)) (k : κ) :
    NodupKeys l →
    dlookup (l.filter Q) k =
      match dlookup l k with
      | some v => if Q (k, v) then some v else none
      | none => none := by
  induction l with
  | nil =>
    intro _
    simp [dlookup]
  | cons p ps ih =>
    intro h
    rw [NodupKeys, List.map_cons, List.nodup_cons] at h
    obtain ⟨k0, v0⟩ := p
    by_cases hp : k0 = k
    · subst hp
      have hnone : dlookup (ps.filter Q) k0 = none := by
        cases hps : dlookup (ps.filter Q) k0 with
        | none => rfl
        | some w =>
          have h1 := dlookup_mem hps
          have h2 := List.mem_of_mem_filter h1
          have h3 : k0 ∈ ps.map Prod.fst := List.mem_map_of_mem Prod.fst h2
          exact absurd h3 h.1
      cases hQ : Q (k0, v0) <;>
        simp [dlookup, List.filter_cons, hQ, hnone]
    · cases hQ : Q (k0, v0) <;>
        simp [dlookup, hp, List.filter_cons, hQ, ih h.2]

theorem dlookup_map_kv {κ α β : Type} [DecidableEq κ] (g : κ → α → β)
    (l : List (κ × α)) (k : κ) :
    dlookup (l.map (fun p => (p.1, g p.1 p.2))) k = (dlookup l k).map (g k) := by
  induction l with
  | nil => simp [dlookup]
  | cons p ps ih =>
    by_cases hp : p.1 = k
    · subst hp
      simp [dlookup, ih]
    · simp [dlookup, hp, ih]

/-- Building a dict by assigning f k under key k for each k in ks, in order
(the shape of every ret[sr.name] = ... loop in the module). -/
def kf_fold {κ α : Type} [DecidableEq κ] (f : κ → α) : List κ → List (κ × α) → List (κ × α)
  | [], acc => acc
  | k :: ks, acc => kf_fold f ks (dinsert acc k (f k))

theorem dlookup_kf_fold {κ α : Type} [DecidableEq κ] (f : κ → α) :
    ∀ (ks : List κ) (acc : List (κ × α)) (k' : κ),
      dlookup (kf_fold f ks acc) k' = if k' ∈ ks then some (f k') else dlookup acc k' := by
  intro ks
  induction ks with
  | nil => simp [kf_fold]
  | cons k ks ih =>
    intro acc k'
    rw [kf_fold, ih, dlookup_dinsert]
    by_cases h1 : k' ∈ ks
    · simp [h1]
    · by_cases h2 : k' = k <;> simp [h1, h2]

/-- Building a dict from a list of pairs by repeated assignment
(the shape of the transaction_by_id comprehension). -/
def fp_fold {κ α : Type} [DecidableEq κ] : List (κ × α) → List (κ × α) → List (κ × α)
  | [], acc => acc
  | p :: ps, acc => fp_fold ps (dinsert acc p.1 p.2)

def fromPairs {κ α : Type} [DecidableEq κ] (ps : List (κ × α)) : List (κ × α) :=
  fp_fold ps []

theorem fp_fold_mem {κ α : Type} [DecidableEq κ] :
    ∀ (ps acc : List (κ × α)) (k : κ) (v : α),
      dlookup (fp_fold ps acc) k = some v → (k, v) ∈ ps ∨ dlookup acc k = some v := by
  intro ps
  induction ps with
  | nil =>
    intro acc k v h
    exact Or.inr h
  | cons p ps ih =>
    intro acc k v h
    rcases ih _ k v h with h1 | h2
    · exact Or.inl (List.mem_cons_of_mem _ h1)
    · rw [dlookup_dinsert] at h2
      by_cases hk : k = p.1
      · left
        rw [if_pos hk] at h2
        cases h2
        rw [hk]
        exact List.mem_cons_self _ _
      · rw [if_neg hk] at h2
        exact Or.inr h2

theorem fromPairs_mem {κ α : Type} [DecidableEq κ] {ps : List (κ × α)} {k : κ} {v : α}
    (h : dlookup (fromPairs ps) k = some v) : (k, v) ∈ ps := by
  rcases fp_fold_mem ps [] k v h with h1 | h2
  · exact h1
  · simp [dlookup] at h2

theorem fp_fold_isSome {κ α : Type} [DecidableEq κ] :
    ∀ (ps acc : List (κ × α)) (k : κ),
      k ∈ ps.map Prod.fst ∨ (dlookup acc k).isSome →
      (dlookup (fp_fold ps acc) k).isSome := by
  intro ps
  induction ps with
  | nil =>
    intro acc k h
    rcases h with h | h
    · simp at h
    · exact h
  | cons p ps ih =>
    intro acc k h
    apply ih
    rw [dlookup_dinsert]
    by_cases hk : k = p.1
    · simp [hk]
    · rcases h with h | h
      · simp only [List.map_cons, List.mem_cons] at h
        rcases h with h | h
        · exact absurd h hk
        · exact Or.inl h
      · simp [hk, h]

theorem fromPairs_isSome {κ α : Type} [DecidableEq κ] (ps : List (κ × α)) (k : κ)
    (h : k ∈ ps.map Prod.fst) : (dlookup (fromPairs ps) k).isSome := by
  apply fp_fold_isSome
  exact Or.inl h


/- Date ranges. -/

/-- get_date_range(start, end): the half open list of days
[start + i for i in xrange((end - start).days)]. -/
def get_date_range (start stop : Int) : List Int :=
  (List.range (stop - start).toNat).map (fun (i : Nat) => start + (i : Int))

theorem mem_get_date_range (start stop d : Int) :
    d ∈ get_date_range start stop ↔ start ≤ d ∧ d < stop := by
  rw [get_date_range]
  simp only [List.mem_map, List.mem_range]
  constructor
  · rintro ⟨i, hi, rfl⟩
    constructor
    · omega
    · omega
  · rintro ⟨h1, h2⟩
    exact ⟨(d - start).toNat, by omega, by omega⟩

theorem length_get_date_range (start stop : Int) :
    (get_date_range start stop).length = (stop - start).toNat := by
  rw [get_date_range]
  rw [List.length_map, List.length_range]

theorem nodup_get_date_range (start stop : Int) :
    (get_date_range start stop).Nodup := by
  rw [get_date_range]
  refine List.Nodup.map ?_ (List.nodup_range _)
  intro a b h
  simp only at h
  omega

/- get_predicted_by_date (single site name, lines 48 to 60). -/

/-- get_predicted_by_date(sr_name, start, stop=None): an ordered mapping from
each day of the range to the cached minimum daily pageview count for the site,
defaulting the empty site name to DefaultSR.name lowercased, and the omitted
stop to a single day. -/
def get_predicted_by_date (env : Env) (sr_name : String) (start : Int) (stop : Option Int) :
    List (Int × Int) :=
  let n := if sr_name = "" then env.defaultSRName.toLower else sr_name
  let min_daily := (dlookup env.promoMetrics n).getD 0
  let ndays : Int :=
    match stop with
    | some st => st - start
    | none => 1
  (List.range ndays.toNat).map (fun (i : Nat) => (start + (i : Int), min_daily))

/- get_predicted_pageviews (lines 163 to 179). -/

/-- The per day predicted inventory for a site name: the cached minimum
(0 when the cache has no entry for the name) scaled by INVENTORY_FACTOR and
truncated to an integer by int(). -/
def predicted_daily (env : Env) (n : String) : Int :=
  pyInt ((((dlookup env.promoMetrics n).getD 0 : Int) : ℚ) * INVENTORY_FACTOR)

/-- get_predicted_pageviews(srs, start, end) on a list of sites: for each site,
in order, assigns under its name the dict.fromkeys(dates, value) mapping that
sends every date of the range to the constant predicted value. -/
def get_predicted_pageviews_multi (env : Env) (srs : List SR) (start stop : Int) :
    List (String × List (Int × Int)) :=
  kf_fold
    (fun n => (get_date_range start stop).map (fun d => (d, predicted_daily env n)))
    (srs.map (srName env)) []

/-- get_predicted_pageviews on a single site object: the nested result of the
singleton list indexed at the site name (tup wraps, then ret[srs[0].name]).
The Option records that the final indexing is a plain dict access. -/
def get_predicted_pageviews_single (env : Env) (sr : SR) (start stop : Int) :
    Option (List (Int × Int)) :=
  dlookup (get_predicted_pageviews_multi env [sr] start stop) (srName env sr)

/- get_campaigns_by_date (lines 99 to 142). -/

/-- A Python KeyError, carrying the missing key (a string site name or an
integer transaction id or date). -/
inductive PyErr where
  | keyErrS (k : String) : PyErr
  | keyErrI (k : Int) : PyErr
  deriving DecidableEq

/-- The PromotionWeights rows selected by the query: site key among the
requested keys, date inside the requested range, and, when a campaign is to be
ignored, promo_idx different from its id. -/
def queried_weights (env : Env) (srs : List SR) (start stop : Int) (ignore : Option Campaign) :
    List PromotionWeight :=
  env.promotionWeights.filter (fun pw =>
    decide (pw.sr_name ∈ srs.map srKey) &&
    decide (pw.date ∈ get_date_range start stop) &&
    (match ignore with
     | some ig => decide (pw.promo_idx ≠ ig._id)
     | none => true))

/-- The campaigns bulk loaded by id from the distinct promo_idx values of the
queried weight rows. -/
def loaded_campaigns (env : Env) (srs : List SR) (start stop : Int) (ignore : Option Campaign) :
    List Campaign :=
  env.campaigns.filter (fun c =>
    decide (c._id ∈ (queried_weights env srs start stop ignore).map (fun pw => pw.promo_idx)))

/-- The non sentinel transaction ids referenced by the loaded campaigns. -/
def referenced_trans_ids (env : Env) (srs : List SR) (start stop : Int) (ignore : Option Campaign) :
    List Int :=
  ((loaded_campaigns env srs start stop ignore).filter
    (fun c => decide (c.trans_id ≠ NO_TRANSACTION))).map (fun c => c.trans_id)

/-- transaction_by_id: the dict comprehension keying the bids returned by the
bid store query (transaction in the referenced ids) by transaction id. When no
ids are referenced the query is skipped and the dict is empty, which the
filter over an empty id list also produces. -/
def transaction_by_id (env : Env) (srs : List SR) (start stop : Int) (ignore : Option Campaign) :
    List (Int × Bid) :=
  fromPairs
    ((env.bids.filter
        (fun b => decide (b.transaction ∈ referenced_trans_ids env srs start stop ignore))).map
      (fun b => (b.transaction, b)))

/-- camp.sr_name or DefaultSR.name: the empty campaign site name resolves to
the default site name. -/
def resolved_sr_name (env : Env) (c : Campaign) : String :=
  if c.sr_name = "" then env.defaultSRName else c.sr_name

/-- The dates of the campaign range that fall inside the query range
(camp_dates.intersection(dates), iterated in campaign date order). -/
def camp_hit_dates (c : Campaign) (start stop : Int) : List Int :=
  (get_date_range c.start_date c.end_date).filter
    (fun d => decide (d ∈ get_date_range start stop))

/-- The outer accumulator of get_campaigns_by_date: site name to date to the
list of campaigns attributed to that day. -/
abbrev Buckets := List (String × List (Int × List Campaign))

/-- ret[sr_name][date].append(camp) on the inner defaultdict(list). -/
def ddAppend (inner : List (Int × List Campaign)) (d : Int) (c : Campaign) :
    List (Int × List Campaign) :=
  dupsert (fun old new => old ++ new) inner d [c]

/-- The loop over camp_dates.intersection(dates): each iteration reads
ret[sr_name] from a plain dict (raising KeyError when the site name is not a
key) and appends the campaign to the defaultdict bucket for the date. -/
def dates_fold (n : String) (c : Campaign) : List Int → Buckets → Except PyErr Buckets
  | [], ret => Except.ok ret
  | d :: ds, ret =>
    match dlookup ret n with
    | none => Except.error (PyErr.keyErrS n)
    | some inner => dates_fold n c ds (dinsert ret n (ddAppend inner d c))

/-- The body of the loop over campaigns: skip on the sentinel transaction,
skip on impressions <= 0, read the transaction by direct dict access (KeyError
when the bid store returned no such record), skip unless authorized or
charged, otherwise attribute the campaign to every hit date. -/
def camp_step (env : Env) (srs : List SR) (start stop : Int) (ignore : Option Campaign)
    (ret : Buckets) (c : Campaign) : Except PyErr Buckets :=
  if c.trans_id = NO_TRANSACTION then Except.ok ret
  else if c.impressions ≤ 0 then Except.ok ret
  else
    match dlookup (transaction_by_id env srs start stop ignore) c.trans_id with
    | none => Except.error (PyErr.keyErrI c.trans_id)
    | some transaction =>
      if transaction.is_auth || transaction.is_charged then
        dates_fold (resolved_sr_name env c) c (camp_hit_dates c start stop) ret
      else Except.ok ret

def camp_fold (env : Env) (srs : List SR) (start stop : Int) (ignore : Option Campaign) :
    List Campaign → Buckets → Except PyErr Buckets
  | [], ret => Except.ok ret
  | c :: cs, ret =>
    match camp_step env srs start stop ignore ret c with
    | Except.error err => Except.error err
    | Except.ok ret' => camp_fold env srs start stop ignore cs ret'

/-- ret = \x7bsr.name: defaultdict(list) for sr in srs\x7d. -/
def init_buckets (env : Env) (srs : List SR) : Buckets :=
  kf_fold (fun _ => ([] : List (Int × List Campaign))) (srs.map (srName env)) []

/-- get_campaigns_by_date on a list of sites: the nested mapping site name to
date to attributed campaigns. -/
def get_campaigns_by_date_multi (env : Env) (srs : List SR) (start stop : Int)
    (ignore : Option Campaign) : Except PyErr Buckets :=
  camp_fold env srs start stop ignore
    (loaded_campaigns env srs start stop ignore) (init_buckets env srs)

/-- get_campaigns_by_date on a single site object: tup wraps it in a singleton
list and the nested result is indexed at ret[srs[0].name]. -/
def get_campaigns_by_date_single (env : Env) (sr : SR) (start stop : Int)
    (ignore : Option Campaign) : Except PyErr (List (Int × List Campaign)) :=
  match get_campaigns_by_date_multi env [sr] start stop ignore with
  | Except.error err => Except.error err
  | Except.ok ret =>
    match dlookup ret (srName env sr) with
    | some v => Except.ok v
    | none => Except.error (PyErr.keyErrS (srName env sr))

/- get_sold_pageviews (lines 145 to 160). -/

/-- daily_impressions = camp.impressions / camp.ndays, Python 2 floor division
of ints. Python raises ZeroDivisionError when ndays is 0; Int.fdiv returns 0
there, and no theorem below depends on a zero ndays. -/
def daily_impressions (c : Campaign) : Int := Int.fdiv c.impressions c.ndays

/-- The second pass of get_sold_pageviews: every bucket of attributed
campaigns is summed into a daily impressions figure on a defaultdict(int). -/
def sold_from_campaigns (cb : Buckets) : List (String × List (Int × Int)) :=
  cb.map (fun p => (p.1, p.2.map (fun q => (q.1, (q.2.map daily_impressions).sum))))

def get_sold_pageviews_multi (env : Env) (srs : List SR) (start stop : Int)
    (ignore : Option Campaign) : Except PyErr (List (String × List (Int × Int))) :=
  match get_campaigns_by_date_multi env srs start stop ignore with
  | Except.error err => Except.error err
  | Except.ok cb => Except.ok (sold_from_campaigns cb)

def get_sold_pageviews_single (env : Env) (sr : SR) (start stop : Int)
    (ignore : Option Campaign) : Except PyErr (List (Int × Int)) :=
  match get_sold_pageviews_multi env [sr] start stop ignore with
  | Except.error err => Except.error err
  | Except.ok ret =>
    match dlookup ret (srName env sr) with
    | some v => Except.ok v
    | none => Except.error (PyErr.keyErrS (srName env sr))

/- get_available_pageviews (lines 182 to 204). -/

/-- The datestr=True key renderer. Modelled from the spec: the source formats
the date with strftime, an external C library routine producing a date string;
an injective rendering of the day number stands in for it. -/
def date_strftime (d : Int) : String := toString d

/-- The inner loop over dates: sold is read from the defaultdict with default
0, pageviews from a plain dict (KeyError on a missing date, which the
construction never produces), and max(0, pageviews - sold) is assigned under
the rendered date key. -/
def avail_dates_fold {κ : Type} [DecidableEq κ] (dkey : Int → κ)
    (pvI soldI : List (Int × Int)) : List Int → List (κ × Int) → Except PyErr (List (κ × Int))
  | [], m => Except.ok m
  | d :: ds, m =>
    match dlookup pvI d with
    | none => Except.error (PyErr.keyErrI d)
    | some pageviews =>
      avail_dates_fold dkey pvI soldI ds
        (dinsert m (dkey d) (max 0 (pageviews - (dlookup soldI d).getD 0)))

/-- The outer loop over sites: sold_by_sr_by_date[sr.name] and
pageviews_by_sr_by_date[sr.name] are plain dict reads. -/
def avail_srs_fold {κ : Type} [DecidableEq κ] (env : Env) (dkey : Int → κ)
    (sold pv : List (String × List (Int × Int))) (dates : List Int) :
    List SR → List (String × List (κ × Int)) → Except PyErr (List (String × List (κ × Int)))
  | [], ret => Except.ok ret
  | sr :: rest, ret =>
    match dlookup sold (srName env sr) with
    | none => Except.error (PyErr.keyErrS (srName env sr))
    | some soldI =>
      match dlookup pv (srName env sr) with
      | none => Except.error (PyErr.keyErrS (srName env sr))
      | some pvI =>
        match avail_dates_fold dkey pvI soldI dates [] with
        | Except.error err => Except.error err
        | Except.ok inner =>
          avail_srs_fold env dkey sold pv dates rest (dinsert ret (srName env sr) inner)

/-- get_available_pageviews generic in the date key renderer (the datekey
lambda): identity for datestr=False, date_strftime for datestr=True. -/
def get_available_pageviews_gen {κ : Type} [DecidableEq κ] (env : Env) (srs : List SR)
    (start stop : Int) (dkey : Int → κ) (ignore : Option Campaign) :
    Except PyErr (List (String × List (κ × Int))) :=
  match get_sold_pageviews_multi env srs start stop ignore with
  | Except.error err => Except.error err
  | Except.ok sold =>
    avail_srs_fold env dkey sold (get_predicted_pageviews_multi env srs start stop)
      (get_date_range start stop) srs []

/-- get_available_pageviews with the default datestr=False on a list of
sites: date objects as keys. -/
def get_available_pageviews_multi (env : Env) (srs : List SR) (start stop : Int)
    (ignore : Option Campaign) : Except PyErr (List (String × List (Int × Int))) :=
  get_available_pageviews_gen env srs start stop (fun d => d) ignore

def get_available_pageviews_single (env : Env) (sr : SR) (start stop : Int)
    (ignore : Option Campaign) : Except PyErr (List (Int × Int)) :=
  match get_available_pageviews_multi env [sr] start stop ignore with
  | Except.error err => Except.error err
  | Except.ok ret =>
    match dlookup ret (srName env sr) with
    | some v => Except.ok v
    | none => Except.error (PyErr.keyErrS (srName env sr))

/-- get_available_pageviews with datestr=True on a single site, as called by
get_oversold. -/
def get_available_pageviews_str_single (env : Env) (sr : SR) (start stop : Int)
    (ignore : Option Campaign) : Except PyErr (List (String × Int)) :=
  match get_available_pageviews_gen env [sr] start stop date_strftime ignore with
  | Except.error err => Except.error err
  | Except.ok ret =>
    match dlookup ret (srName env sr) with
    | some v => Except.ok v
    | none => Except.error (PyErr.keyErrS (srName env sr))

/- get_oversold (lines 207 to 214). -/

/-- get_oversold(sr, start, end, daily_request): the entries of the
datestr=True availability mapping whose availability is strictly below the
request. -/
def get_oversold (env : Env) (sr : SR) (start stop : Int) (daily_request : Int)
    (ignore : Option Campaign) : Except PyErr (List (String × Int)) :=
  match get_available_pageviews_str_single env sr start stop ignore with
  | Except.error err => Except.error err
  | Except.ok avail =>
    Except.ok (avail.filter (fun p => decide (p.2 < daily_request)))

deriving instance DecidableEq for Except

/- Characterization of the prediction reader. -/

theorem pyInt_intCast (m : Int) : pyInt ((m : Int) : ℚ) = m := by
  rw [pyInt, Rat.intCast_num, Rat.intCast_den]
  exact Int.tdiv_one m

/-- With INVENTORY_FACTOR = 1 the scaled and truncated prediction is the
cached minimum itself. -/
theorem predicted_daily_eq (env : Env) (n : String) :
    predicted_daily env n = (dlookup env.promoMetrics n).getD 0 := by
  rw [predicted_daily, INVENTORY_FACTOR, mul_one]
  exact pyInt_intCast _

theorem dlookup_const_map {α : Type} (ds : List Int) (v : α) (x : Int) :
    dlookup (ds.map (fun d => (d, v))) x = if x ∈ ds then some v else none := by
  induction ds with
  | nil => simp [dlookup]
  | cons d ds ih =>
    by_cases hd : d = x
    · simp [dlookup, hd]
    · have : ¬ x = d := fun h => hd h.symm
      simp [dlookup, hd, this, ih]

/-- The predicted pageviews result holds exactly the requested site names as
keys, each mapped to the constant per day prediction over the range. -/
theorem predicted_multi_char (env : Env) (srs : List SR) (start stop : Int) (n : String) :
    dlookup (get_predicted_pageviews_multi env srs start stop) n =
      if n ∈ srs.map (srName env) then
        some ((get_date_range start stop).map (fun d => (d, predicted_daily env n)))
      else none := by
  rw [get_predicted_pageviews_multi, dlookup_kf_fold]
  by_cases h : n ∈ srs.map (srName env) <;> simp [h, dlookup]

/- Characterization of get_campaigns_by_date. -/

theorem dlookup_ddAppend (inner : List (Int × List Campaign)) (d : Int) (c : Campaign)
    (d' : Int) :
    dlookup (ddAppend inner d c) d' =
      if d' = d then some ((dlookup inner d).getD [] ++ [c]) else dlookup inner d' := by
  rw [ddAppend, dlookup_dupsert]
  by_cases h : d' = d <;> simp [h]
  cases dlookup inner d <;> simp

/-- The filter a campaign passes before being attributed: a real transaction,
positive impressions, and a transaction found authorized or charged. -/
def camp_eligible (env : Env) (srs : List SR) (start stop : Int) (ignore : Option Campaign)
    (c : Campaign) : Bool :=
  decide (c.trans_id ≠ NO_TRANSACTION) && decide (0 < c.impressions) &&
  (match dlookup (transaction_by_id env srs start stop ignore) c.trans_id with
   | some b => b.is_auth || b.is_charged
   | none => false)

/-- The campaigns of cs that end up in the bucket of site name n and date d:
the eligible ones attributed to n whose own range and the query range both
contain d. -/
def bucket_spec (env : Env) (srs : List SR) (start stop : Int) (ignore : Option Campaign)
    (cs : List Campaign) (n : String) (d : Int) : List Campaign :=
  cs.filter (fun c =>
    camp_eligible env srs start stop ignore c &&
    decide (resolved_sr_name env c = n) &&
    decide (d ∈ get_date_range c.start_date c.end_date) &&
    decide (d ∈ get_date_range start stop))

/-- Reading a bucket through the defaultdict lens: the campaign list under a
site name and date, an empty list when the date has no entry yet, and none
when the site name itself is not a key. -/
def bucketLens (ret : Buckets) (n : String) (d : Int) : Option (List Campaign) :=
  (dlookup ret n).map (fun inner => (dlookup inner d).getD [])

theorem dates_fold_ok :
    ∀ (ds : List Int) (n : String) (c : Campaign) (r0 r : Buckets),
      ds.Nodup → dates_fold n c ds r0 = Except.ok r →
      (∀ m, (dlookup r m).isSome = (dlookup r0 m).isSome) ∧
      (∀ m d, bucketLens r m d =
        (bucketLens r0 m d).map (fun l => l ++ if m = n ∧ d ∈ ds then [c] else [])) := by
  intro ds
  induction ds with
  | nil =>
    intro n c r0 r _ h
    rw [dates_fold] at h
    cases h
    constructor
    · intro m
      rfl
    · intro m d
      rw [bucketLens]
      cases dlookup r0 m <;> simp [bucketLens]
  | cons d0 ds ih =>
    intro n c r0 r hnd h
    rw [dates_fold] at h
    cases hr : dlookup r0 n with
    | none =>
      rw [hr] at h
      cases h
    | some inner =>
      rw [hr] at h
      have hd0 : d0 ∉ ds := (List.nodup_cons.mp hnd).1
      obtain ⟨h1, h2⟩ := ih n c _ r (List.nodup_cons.mp hnd).2 h
      constructor
      · intro m
        rw [h1 m, dlookup_dinsert]
        by_cases hm : m = n
        · rw [if_pos hm, hm, hr]
          rfl
        · rw [if_neg hm]
      · intro m d
        rw [h2 m d]
        by_cases hm : m = n
        · subst hm
          have hlm : bucketLens (dinsert r0 m (ddAppend inner d0 c)) m d =
              some (if d = d0 then (dlookup inner d0).getD [] ++ [c]
                    else (dlookup inner d).getD []) := by
            rw [bucketLens, dlookup_dinsert, if_pos rfl]
            simp only [Option.map_some']
            rw [dlookup_ddAppend]
            by_cases hd : d = d0 <;> simp [hd]
          rw [hlm, bucketLens, hr]
          by_cases hd : d = d0
          · have hds : d ∉ ds := by
              rw [hd]; exact hd0
            simp [hd, hds, hd0]
          · by_cases hmem : d ∈ ds <;> simp [hd, hmem]
        · have hlm : bucketLens (dinsert r0 n (ddAppend inner d0 c)) m d =
              bucketLens r0 m d := by
            rw [bucketLens, bucketLens, dlookup_dinsert, if_neg hm]
          rw [hlm]
          have hc1 : ¬ (m = n ∧ d ∈ d0 :: ds) := fun hc => hm hc.1
          have hc2 : ¬ (m = n ∧ d ∈ ds) := fun hc => hm hc.1
          cases bucketLens r0 m d <;> simp [hc1, hc2, hm]

theorem hit_dates_nodup (c : Campaign) (start stop : Int) :
    (camp_hit_dates c start stop).Nodup :=
  List.Nodup.filter _ (nodup_get_date_range _ _)

theorem mem_camp_hit_dates (c : Campaign) (start stop d : Int) :
    d ∈ camp_hit_dates c start stop ↔
      d ∈ get_date_range c.start_date c.end_date ∧ d ∈ get_date_range start stop := by
  rw [camp_hit_dates, List.mem_filter]
  simp

theorem camp_fold_ok (env : Env) (srs : List SR) (start stop : Int) (ignore : Option Campaign) :
    ∀ (cs : List Campaign) (r0 r : Buckets),
      camp_fold env srs start stop ignore cs r0 = Except.ok r →
      (∀ m, (dlookup r m).isSome = (dlookup r0 m).isSome) ∧
      (∀ m d, bucketLens r m d =
        (bucketLens r0 m d).map
          (fun l => l ++ bucket_spec env srs start stop ignore cs m d)) := by
  intro cs
  induction cs with
  | nil =>
    intro r0 r h
    rw [camp_fold] at h
    cases h
    constructor
    · intro m
      rfl
    · intro m d
      cases bucketLens r0 m d <;> simp [bucket_spec]
  | cons c cs ih =>
    intro r0 r h
    rw [camp_fold] at h
    cases hs : camp_step env srs start stop ignore r0 c with
    | error e =>
      rw [hs] at h
      cases h
    | ok r1 =>
      rw [hs] at h
      obtain ⟨h1, h2⟩ := ih r1 r h
      rw [camp_step] at hs
      by_cases ht : c.trans_id = NO_TRANSACTION
      · rw [if_pos ht] at hs
        cases hs
        have he : camp_eligible env srs start stop ignore c = false := by
          simp [camp_eligible, ht]
        refine ⟨h1, ?_⟩
        intro m d
        rw [h2 m d]
        simp [bucket_spec, List.filter_cons, he]
      · rw [if_neg ht] at hs
        by_cases hi : c.impressions ≤ 0
        · rw [if_pos hi] at hs
          cases hs
          have he : camp_eligible env srs start stop ignore c = false := by
            have : ¬ 0 < c.impressions := by omega
            simp [camp_eligible, this]
          refine ⟨h1, ?_⟩
          intro m d
          rw [h2 m d]
          simp [bucket_spec, List.filter_cons, he]
        · rw [if_neg hi] at hs
          cases hl : dlookup (transaction_by_id env srs start stop ignore) c.trans_id with
          | none =>
            rw [hl] at hs
            cases hs
          | some b =>
            rw [hl] at hs
            cases hb : b.is_auth || b.is_charged with
            | true =>
              have hs2 : dates_fold (resolved_sr_name env c) c (camp_hit_dates c start stop) r0 =
                  Except.ok r1 := by
                simpa [hb] using hs
              have he : camp_eligible env srs start stop ignore c = true := by
                have hip : 0 < c.impressions := by omega
                simp [camp_eligible, ht, hip, hl, hb]
              obtain ⟨g1, g2⟩ :=
                dates_fold_ok (camp_hit_dates c start stop) (resolved_sr_name env c) c r0 r1
                  (hit_dates_nodup c start stop) hs2
              constructor
              · intro m
                rw [h1 m, g1 m]
              · intro m d
                rw [h2 m d, g2 m d]
                have hsplit : bucket_spec env srs start stop ignore (c :: cs) m d =
                    (if m = resolved_sr_name env c ∧ d ∈ camp_hit_dates c start stop
                     then [c] else []) ++ bucket_spec env srs start stop ignore cs m d := by
                  simp only [bucket_spec, List.filter_cons]
                  by_cases hcond : m = resolved_sr_name env c ∧ d ∈ camp_hit_dates c start stop
                  · have hcm : resolved_sr_name env c = m := hcond.1.symm
                    have hcd := (mem_camp_hit_dates c start stop d).mp hcond.2
                    rw [if_pos hcond, he]
                    simp [hcm, hcd.1, hcd.2]
                  · rw [if_neg hcond]
                    have hbool : (camp_eligible env srs start stop ignore c &&
                        decide (resolved_sr_name env c = m) &&
                        decide (d ∈ get_date_range c.start_date c.end_date) &&
                        decide (d ∈ get_date_range start stop)) = false := by
                      rcases Decidable.not_and_iff_or_not.mp hcond with hm | hd
                      · have hm2 : ¬ resolved_sr_name env c = m := fun hx => hm hx.symm
                        simp [hm2]
                      · rw [mem_camp_hit_dates] at hd
                        rcases Decidable.not_and_iff_or_not.mp hd with hd1 | hd2
                        · simp [hd1]
                        · simp [hd2]
                    simp only [hbool, Bool.false_eq_true, if_false, List.nil_append]
                rw [hsplit]
                cases bucketLens r0 m d <;> simp
            | false =>
              have hr01 : r0 = r1 := by
                simpa [hb] using hs
              subst hr01
              have he : camp_eligible env srs start stop ignore c = false := by
                simp [camp_eligible, hl, hb]
              refine ⟨h1, ?_⟩
              intro m d
              rw [h2 m d]
              simp [bucket_spec, List.filter_cons, he]

theorem bucketLens_init (env : Env) (srs : List SR) (n : String) (d : Int) :
    bucketLens (init_buckets env srs) n d =
      if n ∈ srs.map (srName env) then some [] else none := by
  rw [bucketLens, init_buckets, dlookup_kf_fold]
  by_cases h : n ∈ srs.map (srName env) <;> simp [h, dlookup]

theorem dlookup_init_buckets_isSome (env : Env) (srs : List SR) (n : String) :
    (dlookup (init_buckets env srs) n).isSome ↔ n ∈ srs.map (srName env) := by
  rw [init_buckets, dlookup_kf_fold]
  by_cases h : n ∈ srs.map (srName env) <;> simp [h, dlookup]

/-- When get_campaigns_by_date succeeds on a list of sites, the result has
exactly the site names as keys and every bucket is the bucket_spec filter of
the loaded campaigns. -/
theorem getCampaigns_ok_char (env : Env) (srs : List SR) (start stop : Int)
    (ignore : Option Campaign) (ret : Buckets)
    (h : get_campaigns_by_date_multi env srs start stop ignore = Except.ok ret) :
    (∀ n, (dlookup ret n).isSome ↔ n ∈ srs.map (srName env)) ∧
    (∀ n d, bucketLens ret n d =
      if n ∈ srs.map (srName env) then
        some (bucket_spec env srs start stop ignore
          (loaded_campaigns env srs start stop ignore) n d)
      else none) := by
  rw [get_campaigns_by_date_multi] at h
  obtain ⟨h1, h2⟩ := camp_fold_ok env srs start stop ignore _ _ _ h
  constructor
  · intro n
    rw [← dlookup_init_buckets_isSome env srs n, h1 n]
  · intro n d
    rw [h2 n d, bucketLens_init]
    by_cases hmem : n ∈ srs.map (srName env) <;> simp [hmem]

/- Error behaviour of get_campaigns_by_date (the transaction KeyError). -/

theorem dates_fold_err (n : String) (c : Campaign) :
    ∀ (ds : List Int) (r0 : Buckets) (err : PyErr),
      dates_fold n c ds r0 = Except.error err → err = PyErr.keyErrS n := by
  intro ds
  induction ds with
  | nil =>
    intro r0 err h
    rw [dates_fold] at h
    cases h
  | cons d0 ds ih =>
    intro r0 err h
    rw [dates_fold] at h
    cases hr : dlookup r0 n with
    | none =>
      rw [hr] at h
      cases h
      rfl
    | some inner =>
      rw [hr] at h
      exact ih _ err h

theorem camp_fold_err_keyErrI (env : Env) (srs : List SR) (start stop : Int)
    (ignore : Option Campaign) :
    ∀ (cs : List Campaign) (r0 : Buckets) (t : Int),
      camp_fold env srs start stop ignore cs r0 = Except.error (PyErr.keyErrI t) →
      ∃ c, c ∈ cs ∧ c.trans_id ≠ NO_TRANSACTION ∧ 0 < c.impressions ∧
        dlookup (transaction_by_id env srs start stop ignore) c.trans_id = none ∧
        c.trans_id = t := by
  intro cs
  induction cs with
  | nil =>
    intro r0 t h
    rw [camp_fold] at h
    cases h
  | cons c cs ih =>
    intro r0 t h
    rw [camp_fold] at h
    cases hs : camp_step env srs start stop ignore r0 c with
    | ok r1 =>
      rw [hs] at h
      obtain ⟨c', hc', rest⟩ := ih r1 t h
      exact ⟨c', List.mem_cons_of_mem _ hc', rest⟩
    | error e =>
      rw [hs] at h
      cases h
      rw [camp_step] at hs
      by_cases ht : c.trans_id = NO_TRANSACTION
      · rw [if_pos ht] at hs
        cases hs
      · rw [if_neg ht] at hs
        by_cases hi : c.impressions ≤ 0
        · rw [if_pos hi] at hs
          cases hs
        · rw [if_neg hi] at hs
          cases hl : dlookup (transaction_by_id env srs start stop ignore) c.trans_id with
          | none =>
            rw [hl] at hs
            cases hs
            exact ⟨c, List.mem_cons_self _ _, ht, by omega, hl, rfl⟩
          | some b =>
            rw [hl] at hs
            cases hb : b.is_auth || b.is_charged with
            | true =>
              have hs2 : dates_fold (resolved_sr_name env c) c (camp_hit_dates c start stop) r0 =
                  Except.error (PyErr.keyErrI t) := by
                simpa [hb] using hs
              have := dates_fold_err _ c _ _ _ hs2
              cases this
            | false =>
              have : Except.ok (ε := PyErr) r0 = Except.error (PyErr.keyErrI t) := by
                simpa [hb] using hs
              cases this

theorem camp_fold_reaches_bad (env : Env) (srs : List SR) (start stop : Int)
    (ignore : Option Campaign) :
    ∀ (cs : List Campaign) (r0 : Buckets) (c : Campaign),
      c ∈ cs → c.trans_id ≠ NO_TRANSACTION → 0 < c.impressions →
      dlookup (transaction_by_id env srs start stop ignore) c.trans_id = none →
      ∃ err, camp_fold env srs start stop ignore cs r0 = Except.error err := by
  intro cs
  induction cs with
  | nil =>
    intro r0 c hc
    cases hc
  | cons c0 cs ih =>
    intro r0 c hc ht hi hl
    rw [camp_fold]
    cases hs : camp_step env srs start stop ignore r0 c0 with
    | error e => exact ⟨e, rfl⟩
    | ok r1 =>
      rcases List.mem_cons.mp hc with rfl | hmem
      · exfalso
        rw [camp_step, if_neg ht] at hs
        have hi2 : ¬ c.impressions ≤ 0 := by omega
        rw [if_neg hi2, hl] at hs
        cases hs
      · exact ih r1 c hmem ht hi hl

/- Characterization of get_available_pageviews. -/

/-- The pure value of the inner date loop of get_available_pageviews once the
per date pageview lookups are known to succeed. -/
def avail_inner_build {κ : Type} [DecidableEq κ] (dkey : Int → κ)
    (pvI soldI : List (Int × Int)) : List Int → List (κ × Int) → List (κ × Int)
  | [], m => m
  | d :: ds, m =>
    avail_inner_build dkey pvI soldI ds
      (dinsert m (dkey d) (max 0 ((dlookup pvI d).getD 0 - (dlookup soldI d).getD 0)))

theorem avail_dates_fold_ok {κ : Type} [DecidableEq κ] (dkey : Int → κ)
    (pvI soldI : List (Int × Int)) :
    ∀ (ds : List Int) (m0 m : List (κ × Int)),
      avail_dates_fold dkey pvI soldI ds m0 = Except.ok m →
      m = avail_inner_build dkey pvI soldI ds m0 := by
  intro ds
  induction ds with
  | nil =>
    intro m0 m h
    rw [avail_dates_fold] at h
    cases h
    rfl
  | cons d ds ih =>
    intro m0 m h
    rw [avail_dates_fold] at h
    cases hp : dlookup pvI d with
    | none =>
      rw [hp] at h
      cases h
    | some pageviews =>
      rw [hp] at h
      rw [avail_inner_build, hp]
      exact ih _ m h

theorem avail_inner_build_lookup {κ : Type} [DecidableEq κ] (dkey : Int → κ)
    (hg : ∀ a b, dkey a = dkey b → a = b) (pvI soldI : List (Int × Int)) :
    ∀ (ds : List Int) (m0 : List (κ × Int)) (x : Int),
      dlookup (avail_inner_build dkey pvI soldI ds m0) (dkey x) =
        if x ∈ ds then some (max 0 ((dlookup pvI x).getD 0 - (dlookup soldI x).getD 0))
        else dlookup m0 (dkey x) := by
  intro ds
  induction ds with
  | nil =>
    intro m0 x
    simp [avail_inner_build]
  | cons d ds ih =>
    intro m0 x
    rw [avail_inner_build, ih]
    by_cases hx : x ∈ ds
    · simp [hx]
    · rw [dlookup_dinsert]
      by_cases hxd : x = d
      · subst hxd
        simp [hx]
      · have : ¬ dkey x = dkey d := fun h => hxd (hg _ _ h)
        simp [hx, hxd, this]

theorem avail_inner_build_isSome_stable {κ : Type} [DecidableEq κ] (dkey : Int → κ)
    (pvI soldI : List (Int × Int)) :
    ∀ (ds : List Int) (m0 : List (κ × Int)) (k : κ),
      (dlookup m0 k).isSome = true →
      (dlookup (avail_inner_build dkey pvI soldI ds m0) k).isSome = true := by
  intro ds
  induction ds with
  | nil =>
    intro m0 k h
    exact h
  | cons d ds ih =>
    intro m0 k h
    rw [avail_inner_build]
    apply ih
    rw [dlookup_dinsert]
    by_cases hk : k = dkey d <;> simp [hk, h]

theorem avail_inner_build_isSome_of_mem {κ : Type} [DecidableEq κ] (dkey : Int → κ)
    (pvI soldI : List (Int × Int)) :
    ∀ (ds : List Int) (m0 : List (κ × Int)) (d : Int),
      d ∈ ds →
      (dlookup (avail_inner_build dkey pvI soldI ds m0) (dkey d)).isSome = true := by
  intro ds
  induction ds with
  | nil =>
    intro m0 d h
    cases h
  | cons d0 ds ih =>
    intro m0 d h
    rcases List.mem_cons.mp h with rfl | hmem
    · rw [avail_inner_build]
      apply avail_inner_build_isSome_stable
      rw [dlookup_dinsert, if_pos rfl]
      rfl
    · rw [avail_inner_build]
      exact ih _ d hmem

theorem avail_inner_build_keys {κ : Type} [DecidableEq κ] (dkey : Int → κ)
    (pvI soldI : List (Int × Int)) :
    ∀ (ds : List Int) (m0 : List (κ × Int)) (k : κ),
      (dlookup (avail_inner_build dkey pvI soldI ds m0) k).isSome = true →
      (∃ d, d ∈ ds ∧ k = dkey d) ∨ (dlookup m0 k).isSome = true := by
  intro ds
  induction ds with
  | nil =>
    intro m0 k h
    exact Or.inr h
  | cons d ds ih =>
    intro m0 k h
    rw [avail_inner_build] at h
    rcases ih _ k h with h1 | h2
    · obtain ⟨d', hd', rfl⟩ := h1
      exact Or.inl ⟨d', List.mem_cons_of_mem _ hd', rfl⟩
    · rw [dlookup_dinsert] at h2
      by_cases hk : k = dkey d
      · exact Or.inl ⟨d, List.mem_cons_self _ _, hk⟩
      · rw [if_neg hk] at h2
        exact Or.inr h2

theorem nodupKeys_avail_inner_build {κ : Type} [DecidableEq κ] (dkey : Int → κ)
    (pvI soldI : List (Int × Int)) :
    ∀ (ds : List Int) (m0 : List (κ × Int)),
      NodupKeys m0 → NodupKeys (avail_inner_build dkey pvI soldI ds m0) := by
  intro ds
  induction ds with
  | nil =>
    intro m0 h
    exact h
  | cons d ds ih =>
    intro m0 h
    rw [avail_inner_build]
    exact ih _ (nodupKeys_dinsert _ _ _ h)

theorem avail_srs_fold_ok {κ : Type} [DecidableEq κ] (env : Env) (dkey : Int → κ)
    (sold pv : List (String × List (Int × Int))) (dates : List Int) :
    ∀ (srs' : List SR) (r0 ret : List (String × List (κ × Int))),
      avail_srs_fold env dkey sold pv dates srs' r0 = Except.ok ret →
      ∀ n, dlookup ret n =
        if n ∈ srs'.map (srName env) then
          some (avail_inner_build dkey ((dlookup pv n).getD []) ((dlookup sold n).getD [])
            dates [])
        else dlookup r0 n := by
  intro srs'
  induction srs' with
  | nil =>
    intro r0 ret h n
    rw [avail_srs_fold] at h
    cases h
    simp
  | cons sr rest ih =>
    intro r0 ret h n
    rw [avail_srs_fold] at h
    cases hsold : dlookup sold (srName env sr) with
    | none =>
      rw [hsold] at h
      cases h
    | some soldI =>
      cases hpv : dlookup pv (srName env sr) with
      | none =>
        simp only [hsold, hpv] at h
        cases h
      | some pvI =>
        cases hin : avail_dates_fold dkey pvI soldI dates [] with
        | error e =>
          simp only [hsold, hpv, hin] at h
          cases h
        | ok inner =>
          simp only [hsold, hpv, hin] at h
          have hinner : inner = avail_inner_build dkey pvI soldI dates [] :=
            avail_dates_fold_ok dkey pvI soldI dates [] inner hin
          rw [ih _ ret h n]
          by_cases hrest : n ∈ rest.map (srName env)
          · simp [hrest]
          · rw [if_neg hrest, dlookup_dinsert]
            by_cases hn : n = srName env sr
            · subst hn
              rw [if_pos rfl]
              simp only [List.map_cons, List.mem_cons, hrest, or_false]
              rw [if_pos trivial, hinner, hsold, hpv]
              rfl
            · rw [if_neg hn]
              have : ¬ n ∈ (sr :: rest).map (srName env) := by
                simp only [List.map_cons, List.mem_cons]
                rintro (h1 | h2)
                · exact hn h1
                · exact hrest h2
              rw [if_neg this]

/- Characterization of get_sold_pageviews. -/

theorem get_sold_multi_ok_elim (env : Env) (srs : List SR) (start stop : Int)
    (ignore : Option Campaign) (sold : List (String × List (Int × Int)))
    (hsold : get_sold_pageviews_multi env srs start stop ignore = Except.ok sold) :
    ∃ cb, get_campaigns_by_date_multi env srs start stop ignore = Except.ok cb ∧
      sold = sold_from_campaigns cb := by
  rw [get_sold_pageviews_multi] at hsold
  cases h : get_campaigns_by_date_multi env srs start stop ignore with
  | error e =>
    rw [h] at hsold
    cases hsold
  | ok cb =>
    rw [h] at hsold
    cases hsold
    exact ⟨cb, rfl, rfl⟩

theorem dlookup_sold_from_campaigns (cb : Buckets) (n : String) :
    dlookup (sold_from_campaigns cb) n =
      (dlookup cb n).map
        (fun inner => inner.map (fun q => (q.1, (q.2.map daily_impressions).sum))) := by
  rw [sold_from_campaigns]
  induction cb with
  | nil => simp [dlookup]
  | cons p ps ih =>
    by_cases hp : p.1 = n
    · simp [dlookup, hp]
    · simp [dlookup, hp, ih]

/-- The sold count read for a site name and date downstream: the defaultdict
read with default 0 under a plain outer read (total here through getD, the
callers establish the outer key exists). -/
def sold_at (sold : List (String × List (Int × Int))) (n : String) (d : Int) : Int :=
  (dlookup ((dlookup sold n).getD []) d).getD 0

/- Claim theorems. -/

/-- C9: for every site name and start date, when the end date is omitted,
get_predicted_by_date returns a mapping with exactly one entry, keyed by the
start date (and valued at the cached minimum for the resolved site name). -/
theorem c9_predicted_by_date_single_day (env : Env) (sr_name : String) (start : Int) :
    get_predicted_by_date env sr_name start none =
      [(start,
        (dlookup env.promoMetrics
          (if sr_name = "" then env.defaultSRName.toLower else sr_name)).getD 0)] := by
  rw [get_predicted_by_date]
  simp [List.range_succ]

theorem camp_eligible_elim (env : Env) (srs : List SR) (start stop : Int)
    (ignore : Option Campaign) (c : Campaign)
    (he : camp_eligible env srs start stop ignore c = true) :
    c.trans_id ≠ NO_TRANSACTION ∧ 0 < c.impressions ∧
      ∃ b, dlookup (transaction_by_id env srs start stop ignore) c.trans_id = some b ∧
        (b.is_auth || b.is_charged) = true := by
  rw [camp_eligible] at he
  cases hl : dlookup (transaction_by_id env srs start stop ignore) c.trans_id with
  | none =>
    rw [hl] at he
    simp at he
  | some b =>
    rw [hl] at he
    simp only [Bool.and_eq_true, decide_eq_true_eq] at he
    exact ⟨he.1.1, he.1.2, b, rfl, he.2⟩

/-- The number of occurrences of a campaign record in a bucket. -/
def countOcc (c : Campaign) : List Campaign → Nat
  | [] => 0
  | x :: xs => (if x = c then 1 else 0) + countOcc c xs

theorem countOcc_eq_zero (c : Campaign) :
    ∀ (l : List Campaign), c ∉ l → countOcc c l = 0 := by
  intro l
  induction l with
  | nil =>
    intro _
    rfl
  | cons x xs ih =>
    intro h
    have hx : ¬ x = c := by
      intro hx
      exact h (hx ▸ List.mem_cons_self _ _)
    have hc : c ∉ xs := fun hc => h (List.mem_cons_of_mem _ hc)
    rw [countOcc, if_neg hx, ih hc]

theorem countOcc_eq_one (c : Campaign) :
    ∀ (l : List Campaign), l.Nodup → c ∈ l → countOcc c l = 1 := by
  intro l
  induction l with
  | nil =>
    intro _ h
    cases h
  | cons x xs ih =>
    intro hnd hmem
    obtain ⟨hx, hxs⟩ := List.nodup_cons.mp hnd
    rcases List.mem_cons.mp hmem with rfl | hmem2
    · rw [countOcc, if_pos rfl, countOcc_eq_zero c xs hx]
    · have hx2 : ¬ x = c := by
        intro hx2
        exact hx (hx2 ▸ hmem2)
      rw [countOcc, if_neg hx2, ih hxs hmem2]

theorem countOcc_filter (c : Campaign) (p : Campaign → Bool) (hp : p c = true) :
    ∀ (l : List Campaign), countOcc c (l.filter p) = countOcc c l := by
  intro l
  induction l with
  | nil => rfl
  | cons x xs ih =>
    cases hx : p x with
    | true =>
      rw [List.filter_cons, if_pos hx, countOcc, countOcc, ih]
    | false =>
      have hxc : ¬ x = c := by
        intro hxc
        rw [hxc, hp] at hx
        cases hx
      rw [List.filter_cons, if_neg (by simp [hx]), countOcc, if_neg hxc, ih, Nat.zero_add]

/-- C6: get_predicted_pageviews reads the cached minimum (0 when absent),
scales it by INVENTORY_FACTOR, truncates with int(), and returns that same
constant for every date of the half open range [start, stop), which holds
exactly stop - start consecutive days starting at start and excluding stop. -/
theorem c6_predicted_pageviews_constant (env : Env) (srs : List SR) (start stop : Int)
    (sr : SR) (hmem : sr ∈ srs) (hle : start ≤ stop) :
    ∃ inner,
      dlookup (get_predicted_pageviews_multi env srs start stop) (srName env sr) =
        some inner ∧
      (∀ d, dlookup inner d =
        if start ≤ d ∧ d < stop then
          some (pyInt ((((dlookup env.promoMetrics (srName env sr)).getD 0 : Int) : ℚ) *
            INVENTORY_FACTOR))
        else none) ∧
      ((get_date_range start stop).length : Int) = stop - start ∧
      (∀ d, d ∈ get_date_range start stop ↔ start ≤ d ∧ d < stop) := by
  have hname : srName env sr ∈ srs.map (srName env) := List.mem_map_of_mem _ hmem
  refine ⟨(get_date_range start stop).map
    (fun d => (d, predicted_daily env (srName env sr))), ?_, ?_, ?_, ?_⟩
  · rw [predicted_multi_char, if_pos hname]
  · intro d
    rw [dlookup_const_map]
    by_cases hd : d ∈ get_date_range start stop
    · rw [if_pos hd, if_pos ((mem_get_date_range _ _ _).mp hd)]
      rfl
    · rw [if_neg hd, if_neg (fun hc => hd ((mem_get_date_range _ _ _).mpr hc))]
  · rw [length_get_date_range]
    omega
  · intro d
    exact mem_get_date_range start stop d

/-- C4: a campaign appears in a bucket of get_campaigns_by_date only if its
transaction is not the sentinel, its impressions are strictly positive, some
bid record of the store with its transaction id is authorized or charged, and
the bucket date lies both in its own active range and in the query range. -/
theorem c4_bucket_necessary_conditions (env : Env) (srs : List SR) (start stop : Int)
    (ignore : Option Campaign) (ret : Buckets) (n : String)
    (inner : List (Int × List Campaign)) (d : Int) (b : List Campaign) (c : Campaign)
    (hok : get_campaigns_by_date_multi env srs start stop ignore = Except.ok ret)
    (hn : dlookup ret n = some inner) (hd : dlookup inner d = some b) (hc : c ∈ b) :
    c.trans_id ≠ NO_TRANSACTION ∧ 0 < c.impressions ∧
      (∃ bid, bid ∈ env.bids ∧ bid.transaction = c.trans_id ∧
        (bid.is_auth = true ∨ bid.is_charged = true)) ∧
      d ∈ get_date_range c.start_date c.end_date ∧ d ∈ get_date_range start stop := by
  obtain ⟨hk, hv⟩ := getCampaigns_ok_char env srs start stop ignore ret hok
  have hmem : n ∈ srs.map (srName env) := by
    rw [← hk n, hn]
    rfl
  have hb : b = bucket_spec env srs start stop ignore
      (loaded_campaigns env srs start stop ignore) n d := by
    have hv2 := hv n d
    rw [if_pos hmem, bucketLens, hn] at hv2
    simp only [Option.map_some'] at hv2
    rw [hd] at hv2
    exact Option.some.inj hv2
  rw [hb, bucket_spec, List.mem_filter] at hc
  obtain ⟨hcl, hpred⟩ := hc
  simp only [Bool.and_eq_true, decide_eq_true_eq] at hpred
  obtain ⟨⟨⟨he, hres⟩, hdc⟩, hdq⟩ := hpred
  obtain ⟨ht, hi, bid, hbid, hauth⟩ := camp_eligible_elim env srs start stop ignore c he
  have hpair := fromPairs_mem hbid
  rw [List.mem_map] at hpair
  obtain ⟨b0, hb0, hb0eq⟩ := hpair
  have hfst : b0.transaction = c.trans_id := congrArg Prod.fst hb0eq
  have hsnd : b0 = bid := congrArg Prod.snd hb0eq
  subst hsnd
  refine ⟨ht, hi, ⟨b0, List.mem_of_mem_filter hb0, hfst, ?_⟩, hdc, hdq⟩
  cases hba : b0.is_auth with
  | true => exact Or.inl rfl
  | false =>
    simp only [Bool.or_eq_true] at hauth
    rcases hauth with h | h
    · rw [hba] at h
      cases h
    · exact Or.inr h

/-- C10: the transaction lookup in get_campaigns_by_date is a plain dict
access. When the bid store holds a record for every non sentinel transaction
id referenced by the loaded campaigns, no integer keyed KeyError is raised;
and when a campaign that passed the sentinel and impressions checks references
a transaction id with no bid record, the whole call fails instead of skipping
the campaign. -/
theorem c10_transaction_lookup (env : Env) (srs : List SR) (start stop : Int)
    (ignore : Option Campaign) :
    ((∀ c, c ∈ loaded_campaigns env srs start stop ignore →
        c.trans_id ≠ NO_TRANSACTION →
        ∃ b, b ∈ env.bids ∧ b.transaction = c.trans_id) →
      ∀ t, get_campaigns_by_date_multi env srs start stop ignore ≠
        Except.error (PyErr.keyErrI t)) ∧
    (∀ c, c ∈ loaded_campaigns env srs start stop ignore →
      c.trans_id ≠ NO_TRANSACTION → 0 < c.impressions →
      (∀ b, b ∈ env.bids → b.transaction ≠ c.trans_id) →
      ∃ err, get_campaigns_by_date_multi env srs start stop ignore = Except.error err) := by
  constructor
  · intro hpre t hcontra
    rw [get_campaigns_by_date_multi] at hcontra
    obtain ⟨c, hc, ht, hi, hl, _⟩ :=
      camp_fold_err_keyErrI env srs start stop ignore _ _ t hcontra
    obtain ⟨b, hbmem, hbt⟩ := hpre c hc ht
    have hsome : (dlookup (transaction_by_id env srs start stop ignore) c.trans_id).isSome := by
      rw [transaction_by_id]
      apply fromPairs_isSome
      rw [List.mem_map]
      refine ⟨(b.transaction, b), ?_, by rw [hbt]⟩
      rw [List.mem_map]
      refine ⟨b, ?_, rfl⟩
      rw [List.mem_filter]
      refine ⟨hbmem, ?_⟩
      rw [decide_eq_true_eq, hbt, referenced_trans_ids, List.mem_map]
      refine ⟨c, ?_, rfl⟩
      rw [List.mem_filter]
      exact ⟨hc, by rw [decide_eq_true_eq]; exact ht⟩
    rw [hl] at hsome
    cases hsome
  · intro c hc ht hi hnb
    have hl : dlookup (transaction_by_id env srs start stop ignore) c.trans_id = none := by
      cases hq : dlookup (transaction_by_id env srs start stop ignore) c.trans_id with
      | none => rfl
      | some b =>
        exfalso
        have hpair := fromPairs_mem hq
        rw [List.mem_map] at hpair
        obtain ⟨b0, hb0, hb0eq⟩ := hpair
        have hfst : b0.transaction = c.trans_id := congrArg Prod.fst hb0eq
        exact hnb b0 (List.mem_of_mem_filter hb0) hfst
    rw [get_campaigns_by_date_multi]
    exact camp_fold_reaches_bad env srs start stop ignore _ _ c hc ht hi hl

/-- C3: an eligible campaign is placed exactly once in the bucket of its
resolved site name for every date in the intersection of its active range and
the query range, so get_sold_pageviews adds exactly
impressions fdiv ndays (daily_impressions, the same value on every such day)
for it into each such daily sum; and when ndays equals the number of days of
the campaign range, the total over the full lifetime is at most impressions. -/
theorem c3_daily_attribution (env : Env) (srs : List SR) (start stop : Int)
    (ignore : Option Campaign) (ret : Buckets) (c : Campaign)
    (inner : List (Int × List Campaign))
    (hnodup : (env.campaigns.map (fun c0 => c0._id)).Nodup)
    (hok : get_campaigns_by_date_multi env srs start stop ignore = Except.ok ret)
    (hc : c ∈ loaded_campaigns env srs start stop ignore)
    (he : camp_eligible env srs start stop ignore c = true)
    (hret : dlookup ret (resolved_sr_name env c) = some inner) :
    (∀ d, d ∈ get_date_range c.start_date c.end_date → d ∈ get_date_range start stop →
      ∃ b, dlookup inner d = some b ∧ countOcc c b = 1 ∧
        (∀ sold, get_sold_pageviews_multi env srs start stop ignore = Except.ok sold →
          ∃ soldInner, dlookup sold (resolved_sr_name env c) = some soldInner ∧
            dlookup soldInner d = some ((b.map daily_impressions).sum))) ∧
    (c.ndays = ((get_date_range c.start_date c.end_date).length : Int) →
      ((get_date_range c.start_date c.end_date).length : Int) * daily_impressions c ≤
        c.impressions) := by
  obtain ⟨hk, hv⟩ := getCampaigns_ok_char env srs start stop ignore ret hok
  have hmem : resolved_sr_name env c ∈ srs.map (srName env) := by
    rw [← hk (resolved_sr_name env c), hret]
    rfl
  have hcampsnodup : env.campaigns.Nodup := List.Nodup.of_map _ hnodup
  have hloadnodup : (loaded_campaigns env srs start stop ignore).Nodup :=
    List.Nodup.filter _ hcampsnodup
  constructor
  · intro d hdc hdq
    have hv2 := hv (resolved_sr_name env c) d
    rw [if_pos hmem, bucketLens, hret] at hv2
    simp only [Option.map_some'] at hv2
    have hspec := Option.some.inj hv2
    have hcspec : c ∈ bucket_spec env srs start stop ignore
        (loaded_campaigns env srs start stop ignore) (resolved_sr_name env c) d := by
      rw [bucket_spec, List.mem_filter]
      refine ⟨hc, ?_⟩
      simp [he, hdc, hdq]
    cases hinner : dlookup inner d with
    | none =>
      exfalso
      rw [hinner] at hspec
      simp only [Option.getD_none] at hspec
      rw [← hspec] at hcspec
      cases hcspec
    | some b =>
      rw [hinner] at hspec
      simp only [Option.getD_some] at hspec
      refine ⟨b, rfl, ?_, ?_⟩
      · rw [hspec, bucket_spec]
        rw [countOcc_filter c _ (by simp [he, hdc, hdq])]
        exact countOcc_eq_one c _ hloadnodup hc
      · intro sold hsold
        obtain ⟨cb, hcb, rfl⟩ := get_sold_multi_ok_elim env srs start stop ignore sold hsold
        rw [hok] at hcb
        have hcbeq : ret = cb := Except.ok.inj hcb
        subst hcbeq
        refine ⟨inner.map (fun q => (q.1, (q.2.map daily_impressions).sum)), ?_, ?_⟩
        · rw [dlookup_sold_from_campaigns, hret]
          rfl
        · have hml := dlookup_map_kv
            (fun (_ : Int) (v : List Campaign) => (v.map daily_impressions).sum) inner d
          rw [hinner] at hml
          exact hml
  · intro hnd
    obtain ⟨-, hi, -⟩ := camp_eligible_elim env srs start stop ignore c he
    by_cases hL : ((get_date_range c.start_date c.end_date).length : Int) = 0
    · rw [hL, zero_mul]
      omega
    · have hpos : (0:Int) < ((get_date_range c.start_date c.end_date).length : Int) := by
        omega
      rw [daily_impressions, hnd]
      rw [Int.fdiv_eq_ediv _ (le_of_lt hpos)]
      have hdm := Int.ediv_add_emod c.impressions
        ((get_date_range c.start_date c.end_date).length : Int)
      have hnn := Int.emod_nonneg c.impressions
        (by omega : ((get_date_range c.start_date c.end_date).length : Int) ≠ 0)
      omega

/-- C1: for every requested site and every date of the half open range, the
availability computed by get_available_pageviews is
max(0, predicted - sold) with a missing sold entry counting as 0; it is never
negative and equals predicted - sold whenever sold does not exceed
predicted. -/
theorem c1_available_pageviews_max (env : Env) (srs : List SR) (start stop : Int)
    (ignore : Option Campaign) (sr : SR) (sold : List (String × List (Int × Int)))
    (ret : List (String × List (Int × Int))) (d : Int)
    (hsr : sr ∈ srs) (hd : d ∈ get_date_range start stop)
    (hsold : get_sold_pageviews_multi env srs start stop ignore = Except.ok sold)
    (havail : get_available_pageviews_multi env srs start stop ignore = Except.ok ret) :
    ∃ inner v,
      dlookup ret (srName env sr) = some inner ∧ dlookup inner d = some v ∧
      v = max 0 (predicted_daily env (srName env sr) - sold_at sold (srName env sr) d) ∧
      0 ≤ v ∧
      (sold_at sold (srName env sr) d ≤ predicted_daily env (srName env sr) →
        v = predicted_daily env (srName env sr) - sold_at sold (srName env sr) d) := by
  have hname : srName env sr ∈ srs.map (srName env) := List.mem_map_of_mem _ hsr
  rw [get_available_pageviews_multi, get_available_pageviews_gen] at havail
  rw [hsold] at havail
  have hlook := avail_srs_fold_ok env (fun d => d) sold
    (get_predicted_pageviews_multi env srs start stop) (get_date_range start stop)
    srs [] ret havail (srName env sr)
  rw [if_pos hname] at hlook
  have hin := avail_inner_build_lookup (fun d => d) (fun a b h => h)
    ((dlookup (get_predicted_pageviews_multi env srs start stop) (srName env sr)).getD [])
    ((dlookup sold (srName env sr)).getD []) (get_date_range start stop) [] d
  rw [if_pos hd] at hin
  have hpvchar := predicted_multi_char env srs start stop (srName env sr)
  rw [if_pos hname] at hpvchar
  have hpvval : (dlookup ((dlookup (get_predicted_pageviews_multi env srs start stop)
      (srName env sr)).getD []) d).getD 0 = predicted_daily env (srName env sr) := by
    rw [hpvchar]
    simp only [Option.getD_some]
    rw [dlookup_const_map, if_pos hd]
    rfl
  have hval : dlookup (avail_inner_build (fun d => d)
      ((dlookup (get_predicted_pageviews_multi env srs start stop) (srName env sr)).getD [])
      ((dlookup sold (srName env sr)).getD []) (get_date_range start stop) []) d =
      some (max 0 (predicted_daily env (srName env sr) - sold_at sold (srName env sr) d)) := by
    rw [hin, hpvval]
    rfl
  refine ⟨_, _, hlook, hval, rfl, le_max_left _ _, ?_⟩
  intro hle
  exact max_eq_right (sub_nonneg.mpr hle)

/-- C2: get_oversold on a single site returns exactly the entries of the
string keyed availability mapping whose availability is strictly below the
requested amount, each paired with that availability; the availability
mapping has an entry for the rendered key of every date of the range and no
key outside those. -/
theorem c2_oversold_exact (env : Env) (sr : SR) (start stop : Int) (daily_request : Int)
    (ignore : Option Campaign) (avail m : List (String × Int))
    (havail : get_available_pageviews_str_single env sr start stop ignore = Except.ok avail)
    (hm : get_oversold env sr start stop daily_request ignore = Except.ok m) :
    (∀ k v, dlookup m k = some v ↔ (dlookup avail k = some v ∧ v < daily_request)) ∧
    (∀ d, d ∈ get_date_range start stop →
      (dlookup avail (date_strftime d)).isSome = true) ∧
    (∀ k, (dlookup m k).isSome = true →
      ∃ d, d ∈ get_date_range start stop ∧ k = date_strftime d) := by
  rw [get_oversold] at hm
  rw [havail] at hm
  cases hm
  rw [get_available_pageviews_str_single] at havail
  cases hgen : get_available_pageviews_gen env [sr] start stop date_strftime ignore with
  | error e =>
    rw [hgen] at havail
    cases havail
  | ok ret =>
    simp only [hgen] at havail
    rw [get_available_pageviews_gen] at hgen
    cases hsold : get_sold_pageviews_multi env [sr] start stop ignore with
    | error e =>
      rw [hsold] at hgen
      cases hgen
    | ok sold =>
      simp only [hsold] at hgen
      have hlook := avail_srs_fold_ok env date_strftime sold
        (get_predicted_pageviews_multi env [sr] start stop) (get_date_range start stop)
        [sr] [] ret hgen (srName env sr)
      rw [if_pos (by simp)] at hlook
      rw [hlook] at havail
      cases havail
      have hnodup : NodupKeys (avail_inner_build date_strftime
          ((dlookup (get_predicted_pageviews_multi env [sr] start stop)
            (srName env sr)).getD [])
          ((dlookup sold (srName env sr)).getD []) (get_date_range start stop) []) :=
        nodupKeys_avail_inner_build _ _ _ _ [] List.nodup_nil
      refine ⟨?_, ?_, ?_⟩
      · intro k v
        rw [dlookup_filter _ _ _ hnodup]
        cases ha : dlookup (avail_inner_build date_strftime
            ((dlookup (get_predicted_pageviews_multi env [sr] start stop)
              (srName env sr)).getD [])
            ((dlookup sold (srName env sr)).getD []) (get_date_range start stop) []) k with
        | none => simp
        | some w =>
          by_cases hw : w < daily_request
          · simp only [decide_eq_true_eq, if_pos hw]
            constructor
            · rintro h
              cases h
              exact ⟨rfl, hw⟩
            · rintro ⟨h1, _⟩
              exact h1
          · simp only [decide_eq_true_eq, if_neg hw]
            constructor
            · rintro h
              cases h
            · rintro ⟨h1, h2⟩
              cases h1
              exact absurd h2 hw
      · intro d hd
        exact avail_inner_build_isSome_of_mem date_strftime _ _ _ [] d hd
      · intro k hk
        have hsome : (dlookup (avail_inner_build date_strftime
            ((dlookup (get_predicted_pageviews_multi env [sr] start stop)
              (srName env sr)).getD [])
            ((dlookup sold (srName env sr)).getD [])
            (get_date_range start stop) []) k).isSome = true := by
          rw [Option.isSome_iff_exists] at hk
          obtain ⟨v, hv⟩ := hk
          rw [dlookup_filter _ _ _ hnodup] at hv
          cases ha : dlookup (avail_inner_build date_strftime
              ((dlookup (get_predicted_pageviews_multi env [sr] start stop)
                (srName env sr)).getD [])
              ((dlookup sold (srName env sr)).getD [])
              (get_date_range start stop) []) k with
          | none =>
            rw [ha] at hv
            cases hv
          | some w => rfl
        rcases avail_inner_build_keys date_strftime _ _ _ [] k hsome with h1 | h2
        · obtain ⟨d, hd, rfl⟩ := h1
          exact ⟨d, hd, rfl⟩
        · simp [dlookup] at h2

/-- C5: for each public entry point taking sites, the single site call is the
entry under the site name of the nested mapping produced by the singleton
sequence call. -/
theorem c5_single_bulk_symmetry (env : Env) (sr : SR) (start stop : Int)
    (ignore : Option Campaign) :
    (∀ ret, get_campaigns_by_date_multi env [sr] start stop ignore = Except.ok ret →
      ∃ flat, dlookup ret (srName env sr) = some flat ∧
        get_campaigns_by_date_single env sr start stop ignore = Except.ok flat) ∧
    (∀ ret, get_sold_pageviews_multi env [sr] start stop ignore = Except.ok ret →
      ∃ flat, dlookup ret (srName env sr) = some flat ∧
        get_sold_pageviews_single env sr start stop ignore = Except.ok flat) ∧
    (∃ flat, dlookup (get_predicted_pageviews_multi env [sr] start stop)
        (srName env sr) = some flat ∧
      get_predicted_pageviews_single env sr start stop = some flat) ∧
    (∀ ret, get_available_pageviews_multi env [sr] start stop ignore = Except.ok ret →
      ∃ flat, dlookup ret (srName env sr) = some flat ∧
        get_available_pageviews_single env sr start stop ignore = Except.ok flat) := by
  refine ⟨?_, ?_, ?_, ?_⟩
  · intro ret hret
    obtain ⟨hk, _⟩ := getCampaigns_ok_char env [sr] start stop ignore ret hret
    have hsome := (hk (srName env sr)).mpr (by simp)
    rw [Option.isSome_iff_exists] at hsome
    obtain ⟨flat, hflat⟩ := hsome
    refine ⟨flat, hflat, ?_⟩
    rw [get_campaigns_by_date_single]
    simp only [hret, hflat]
  · intro ret hret
    obtain ⟨cb, hcb, rfl⟩ := get_sold_multi_ok_elim env [sr] start stop ignore ret hret
    obtain ⟨hk, _⟩ := getCampaigns_ok_char env [sr] start stop ignore cb hcb
    have hsome := (hk (srName env sr)).mpr (by simp)
    rw [Option.isSome_iff_exists] at hsome
    obtain ⟨flat0, hflat0⟩ := hsome
    refine ⟨flat0.map (fun q => (q.1, (q.2.map daily_impressions).sum)), ?_, ?_⟩
    · rw [dlookup_sold_from_campaigns, hflat0]
      rfl
    · rw [get_sold_pageviews_single]
      simp only [hret, dlookup_sold_from_campaigns, hflat0, Option.map_some']
  · have hchar := predicted_multi_char env [sr] start stop (srName env sr)
    rw [if_pos (by simp)] at hchar
    exact ⟨_, hchar, hchar⟩
  · intro ret hret
    have hm := hret
    rw [get_available_pageviews_multi, get_available_pageviews_gen] at hret
    cases hsold : get_sold_pageviews_multi env [sr] start stop ignore with
    | error e =>
      rw [hsold] at hret
      cases hret
    | ok sold =>
      rw [hsold] at hret
      have hlook := avail_srs_fold_ok env (fun d => d) sold
        (get_predicted_pageviews_multi env [sr] start stop) (get_date_range start stop)
        [sr] [] ret hret (srName env sr)
      rw [if_pos (by simp)] at hlook
      refine ⟨_, hlook, ?_⟩
      rw [get_available_pageviews_single]
      simp only [hm, hlook]

/-- A store state with one authorized campaign on the default site: the
campaign row and its promotion weight carry the empty string site key, while
DefaultSR.name is the front page name. -/
def envC8 : Env :=
  { promoMetrics := [("frontpage", 80)],
    promotionWeights := [{ sr_name := "", date := 0, promo_idx := 1 }],
    campaigns := [{ _id := 1, sr_name := "", start_date := 0, end_date := 1, ndays := 1,
                    impressions := 10, trans_id := 7 }],
    bids := [{ transaction := 7, authed := true, charged := false }],
    defaultSRName := "frontpage" }

/-- C8 counterexample: querying the default site, the sold pageviews result
and the predicted pageviews result key its entries under DefaultSR.name, and
the empty string is not a key of either, contradicting the claim that the
default site appears under the empty string key in the sold and prediction
results. -/
theorem c8_counterexample_empty_key :
    get_sold_pageviews_multi envC8 [SR.defaultSR] 0 1 none =
      Except.ok [("frontpage", [((0:Int), (10:Int))])] ∧
    dlookup [("frontpage", [((0:Int), (10:Int))])] "" = none ∧
    dlookup (get_predicted_pageviews_multi envC8 [SR.defaultSR] 0 1) "" = none ∧
    dlookup (get_predicted_pageviews_multi envC8 [SR.defaultSR] 0 1) "frontpage" =
      some [((0:Int), (80:Int))] := by
  refine ⟨by decide, by decide, ?_, ?_⟩
  · simp only [get_predicted_pageviews_multi, predicted_daily_eq]
    decide
  · simp only [get_predicted_pageviews_multi, predicted_daily_eq]
    decide

/-- C8 amended: the empty string stands for the default site only in the
promotion weights query key (srKey); the sold and predicted result mappings
are keyed by the site names, so the default site appears under DefaultSR.name
rather than under the empty string. -/
theorem c8_amended_default_site_keys (env : Env) (srs : List SR) (start stop : Int)
    (ignore : Option Campaign) (ret : List (String × List (Int × Int)))
    (h : get_sold_pageviews_multi env srs start stop ignore = Except.ok ret) :
    (∀ n, (dlookup ret n).isSome = true ↔ n ∈ srs.map (srName env)) ∧
    (∀ n, (dlookup (get_predicted_pageviews_multi env srs start stop) n).isSome = true ↔
      n ∈ srs.map (srName env)) ∧
    (SR.defaultSR ∈ srs → "" ∈ srs.map srKey) ∧ srKey SR.defaultSR = "" := by
  obtain ⟨cb, hcb, rfl⟩ := get_sold_multi_ok_elim env srs start stop ignore ret h
  obtain ⟨hk, _⟩ := getCampaigns_ok_char env srs start stop ignore cb hcb
  refine ⟨?_, ?_, ?_, rfl⟩
  · intro n
    rw [← hk n, dlookup_sold_from_campaigns]
    cases dlookup cb n <;> simp
  · intro n
    rw [predicted_multi_char]
    by_cases hmem : n ∈ srs.map (srName env) <;> simp [hmem]
  · intro hmem
    exact List.mem_map.mpr ⟨SR.defaultSR, hmem, rfl⟩

/- The historical minimum aggregator (_min_daily_pageviews_by_sr). -/

/-- The characters of the listing page suffix in srpath strings. -/
def listingSuffix : List Char := "-GET_listing".data

/-- Modelled from the spec: traffic.get_time_points for day granularity is
external; the window [end - ndays, end] is the inclusive list of its days. -/
def get_time_points_day (start stop : Int) : List Int :=
  (List.range (stop - start + 1).toNat).map (fun (i : Nat) => start + (i : Int))

/-- The SQL LIKE filter srpath LIKE percent-GET_listing: the path ends with
the listing suffix. -/
def hasSuffix (s suf : List Char) : Bool :=
  decide (suf.length ≤ s.length) && decide (s.drop (s.length - suf.length) = suf)

/-- Whether the listing suffix occurs in s at position k. -/
def matchesAt (s : List Char) (k : Nat) : Bool :=
  decide ((s.drop k).take listingSuffix.length = listingSuffix)

/-- Greedy search of re.match with pattern (.*)-GET_listing: the group (.*)
takes the longest prefix after which the suffix matches, so positions are
tried from the end of the string downward. -/
def reMatchDown (s : List Char) : Nat → Option Nat
  | 0 => if matchesAt s 0 then some 0 else none
  | k + 1 => if matchesAt s (k + 1) then some (k + 1) else reMatchDown s k

/-- group(1) of PAGEVIEWS_REGEXP.match(srpath), none when the regexp does not
match. -/
def pageviews_regexp_group1 (s : List Char) : Option (List Char) :=
  (reMatchDown s s.length).map (fun k => s.take k)

/-- The rows selected by the traffic query: day interval, date among the
window time points, srpath with the listing suffix. -/
def listing_q (rows : List TrafficRow) (ndays stop : Int) : List TrafficRow :=
  rows.filter (fun r =>
    decide (r.interval = "day") &&
    decide (r.date ∈ get_time_points_day (stop - ndays) stop) &&
    hasSuffix r.srpath listingSuffix)

/-- The group-by srpath with func.min aggregation, folding rows into a
running minimum per srpath. -/
def group_min_fold : List TrafficRow → List (List Char × Int) → List (List Char × Int)
  | [], acc => acc
  | r :: rs, acc => group_min_fold rs (dupsert min acc r.srpath r.pageview_count)

/-- The final loop of _min_daily_pageviews_by_sr: for each grouped row, when
the regexp matches, retval[group(1)] = min count; rows that do not match are
silently skipped. -/
def retval_fold : List (List Char × Int) → List (List Char × Int) → List (List Char × Int)
  | [], retval => retval
  | (p, m) :: ps, retval =>
    match pageviews_regexp_group1 p with
    | some name => retval_fold ps (dinsert retval name m)
    | none => retval_fold ps retval

/-- _min_daily_pageviews_by_sr(ndays, end_date) over the traffic rows: the
mapping site name to minimum daily pageviews over the window. The Python
default of end_date (traffic last modified minus one day) comes from the
external traffic store and is passed in here. -/
def _min_daily_pageviews_by_sr (rows : List TrafficRow) (ndays stop : Int) :
    List (List Char × Int) :=
  retval_fold (group_min_fold (listing_q rows ndays stop) []) []

/-- The pageview counts of the rows with a given srpath. -/
def row_counts (p : List Char) (rs : List TrafficRow) : List Int :=
  (rs.filter (fun r => decide (r.srpath = p))).map (fun r => r.pageview_count)

/-- The pageview counts of the qualifying rows of one site: day rows of the
window whose srpath is the site name followed by the listing suffix. -/
def site_counts (rows : List TrafficRow) (ndays stop : Int) (name : List Char) : List Int :=
  row_counts (name ++ listingSuffix) (listing_q rows ndays stop)

/-- Folding a running minimum over a list starting from a. -/
def min_fold (a : Int) : List Int → Int
  | [] => a
  | c :: cs => min_fold (min a c) cs

/-- The minimum of a list of counts, none for the empty list. -/
def min_list : List Int → Option Int
  | [] => none
  | c :: cs => some (min_fold c cs)

/-- Merging two optional minima. -/
def omin : Option Int → Option Int → Option Int
  | none, b => b
  | some a, none => some a
  | some a, some b => some (min a b)

theorem min_fold_le (a : Int) :
    ∀ (l : List Int), min_fold a l ≤ a ∧ ∀ c ∈ l, min_fold a l ≤ c := by
  intro l
  induction l generalizing a with
  | nil =>
    exact ⟨le_refl a, by intro c hc; cases hc⟩
  | cons c cs ih =>
    obtain ⟨h1, h2⟩ := ih (min a c)
    rw [min_fold]
    refine ⟨le_trans h1 (min_le_left a c), ?_⟩
    intro x hx
    rcases List.mem_cons.mp hx with rfl | hmem
    · exact le_trans h1 (min_le_right a x)
    · exact h2 x hmem

theorem min_fold_mem (a : Int) :
    ∀ (l : List Int), min_fold a l = a ∨ min_fold a l ∈ l := by
  intro l
  induction l generalizing a with
  | nil => exact Or.inl rfl
  | cons c cs ih =>
    rw [min_fold]
    rcases ih (min a c) with h | h
    · rcases min_choice a c with hm | hm
      · exact Or.inl (h.trans hm)
      · refine Or.inr ?_
        rw [h.trans hm]
        exact List.mem_cons_self _ _
    · exact Or.inr (List.mem_cons_of_mem _ h)

theorem min_list_spec (l : List Int) (m : Int) :
    min_list l = some m ↔ m ∈ l ∧ ∀ c ∈ l, m ≤ c := by
  constructor
  · intro h
    cases l with
    | nil => cases h
    | cons c cs =>
      rw [min_list] at h
      cases h
      obtain ⟨h1, h2⟩ := min_fold_le c cs
      constructor
      · rcases min_fold_mem c cs with h | h
        · rw [h]
          exact List.mem_cons_self _ _
        · exact List.mem_cons_of_mem _ h
      · intro x hx
        rcases List.mem_cons.mp hx with rfl | hmem
        · exact h1
        · exact h2 x hmem
  · rintro ⟨hm, hlb⟩
    cases l with
    | nil => cases hm
    | cons c cs =>
      rw [min_list]
      congr 1
      obtain ⟨h1, h2⟩ := min_fold_le c cs
      apply le_antisymm
      · rcases List.mem_cons.mp hm with rfl | hmem
        · exact h1
        · exact h2 m hmem
      · rcases min_fold_mem c cs with h | h
        · rw [h]
          exact hlb c (List.mem_cons_self _ _)
        · exact hlb _ (List.mem_cons_of_mem _ h)

theorem min_list_isSome (l : List Int) : (min_list l).isSome = true ↔ l ≠ [] := by
  cases l with
  | nil => simp [min_list]
  | cons c cs => simp [min_list]

theorem min_fold_absorb (a b : Int) :
    ∀ (l : List Int), min_fold (min a b) l = min a (min_fold b l) := by
  intro l
  induction l generalizing b with
  | nil => rfl
  | cons c cs ih =>
    rw [min_fold, min_fold, min_assoc, ih (min b c)]

theorem min_list_cons (c : Int) (l : List Int) :
    min_list (c :: l) = omin (some c) (min_list l) := by
  cases l with
  | nil => rfl
  | cons c2 cs =>
    rw [min_list, min_list, omin, min_fold, min_fold_absorb]

theorem omin_assoc (a b c : Option Int) : omin (omin a b) c = omin a (omin b c) := by
  cases a <;> cases b <;> cases c <;> simp [omin, min_assoc]

theorem dlookup_group_min :
    ∀ (rs : List TrafficRow) (acc : List (List Char × Int)) (p : List Char),
      dlookup (group_min_fold rs acc) p = omin (dlookup acc p) (min_list (row_counts p rs)) := by
  intro rs
  induction rs with
  | nil =>
    intro acc p
    rw [group_min_fold, row_counts]
    cases dlookup acc p <;> simp [min_list, omin]
  | cons r rs ih =>
    intro acc p
    rw [group_min_fold, ih, dlookup_dupsert]
    by_cases hp : p = r.srpath
    · rw [if_pos hp, hp]
      have hcount : row_counts r.srpath (r :: rs) =
          r.pageview_count :: row_counts r.srpath rs := by
        rw [row_counts, List.filter_cons, if_pos (by simp), List.map_cons, row_counts]
      rw [hcount, min_list_cons, ← omin_assoc]
      cases hacc : dlookup acc r.srpath with
      | none => rfl
      | some a => rfl
    · have hpr : ¬ r.srpath = p := fun h => hp h.symm
      have hcount : row_counts p (r :: rs) = row_counts p rs := by
        rw [row_counts, List.filter_cons, if_neg (by simp [hpr]), row_counts]
      rw [if_neg hp, hcount]

theorem keys_group_min :
    ∀ (rs : List TrafficRow) (acc : List (List Char × Int)) (p : List Char),
      p ∈ (group_min_fold rs acc).map Prod.fst →
      p ∈ acc.map Prod.fst ∨ ∃ r, r ∈ rs ∧ r.srpath = p := by
  intro rs
  induction rs with
  | nil =>
    intro acc p h
    exact Or.inl h
  | cons r rs ih =>
    intro acc p h
    rw [group_min_fold] at h
    rcases ih _ p h with h1 | h2
    · rw [mem_keys_dupsert] at h1
      rcases h1 with rfl | h1
      · exact Or.inr ⟨r, List.mem_cons_self _ _, rfl⟩
      · exact Or.inl h1
    · obtain ⟨r2, hr2, hr2p⟩ := h2
      exact Or.inr ⟨r2, List.mem_cons_of_mem _ hr2, hr2p⟩

theorem nodupKeys_group_min :
    ∀ (rs : List TrafficRow) (acc : List (List Char × Int)),
      NodupKeys acc → NodupKeys (group_min_fold rs acc) := by
  intro rs
  induction rs with
  | nil =>
    intro acc h
    exact h
  | cons r rs ih =>
    intro acc h
    rw [group_min_fold]
    exact ih _ (nodupKeys_dupsert _ _ _ _ h)

theorem hasSuffix_iff (s suf : List Char) :
    hasSuffix s suf = true ↔ ∃ t, s = t ++ suf := by
  rw [hasSuffix]
  simp only [Bool.and_eq_true, decide_eq_true_eq]
  constructor
  · rintro ⟨hlen, hdrop⟩
    refine ⟨s.take (s.length - suf.length), ?_⟩
    conv_lhs => rw [← List.take_append_drop (s.length - suf.length) s]
    rw [hdrop]
  · rintro ⟨t, rfl⟩
    constructor
    · rw [List.length_append]
      omega
    · rw [List.length_append]
      have heq : t.length + suf.length - suf.length = t.length := by omega
      rw [heq, List.drop_left]

theorem matchesAt_of_append (t : List Char) :
    matchesAt (t ++ listingSuffix) t.length = true := by
  rw [matchesAt, decide_eq_true_eq, List.drop_left, List.take_length]

theorem matchesAt_false_of_big (s : List Char) (k : Nat)
    (h : s.length < k + listingSuffix.length) : matchesAt s k = false := by
  cases hm : matchesAt s k with
  | false => rfl
  | true =>
    exfalso
    rw [matchesAt, decide_eq_true_eq] at hm
    have hlen := congrArg List.length hm
    rw [List.length_take] at hlen
    have hle : listingSuffix.length ≤ (s.drop k).length := min_eq_left_iff.mp hlen
    rw [List.length_drop] at hle
    have hL : listingSuffix.length = 12 := by decide
    rw [hL] at h hle
    omega

theorem reMatchDown_step (s : List Char) (k : Nat) (hk : matchesAt s k = true) :
    ∀ (j : Nat), (∀ i, k < i → i ≤ k + j → matchesAt s i = false) →
      reMatchDown s (k + j) = some k := by
  intro j
  induction j with
  | zero =>
    intro _
    rw [Nat.add_zero]
    cases k with
    | zero => rw [reMatchDown, if_pos hk]
    | succ k2 => rw [reMatchDown, if_pos hk]
  | succ j ih =>
    intro hfalse
    have hni : matchesAt s (k + (j + 1)) = false := hfalse _ (by omega) (by omega)
    have hrw : k + (j + 1) = (k + j) + 1 := by omega
    rw [hrw] at hni
    rw [hrw, reMatchDown, hni]
    simp only [Bool.false_eq_true, if_false]
    exact ih (fun i hi hle => hfalse i hi (by omega))

theorem regexp_of_suffix (t : List Char) :
    pageviews_regexp_group1 (t ++ listingSuffix) = some t := by
  rw [pageviews_regexp_group1]
  have hlen : (t ++ listingSuffix).length = t.length + listingSuffix.length :=
    List.length_append _ _
  have hstep := reMatchDown_step (t ++ listingSuffix) t.length (matchesAt_of_append t)
    listingSuffix.length
    (fun i hi hle => matchesAt_false_of_big _ i (by omega))
  rw [hlen, hstep]
  simp only [Option.map_some']
  rw [List.take_left t listingSuffix]

theorem dlookup_retval_fold :
    ∀ (ps : List (List Char × Int)) (retval : List (List Char × Int)) (n : List Char),
      (∀ p, p ∈ ps.map Prod.fst → hasSuffix p listingSuffix = true) →
      NodupKeys ps →
      dlookup (retval_fold ps retval) n =
        match dlookup ps (n ++ listingSuffix) with
        | some m => some m
        | none => dlookup retval n := by
  intro ps
  induction ps with
  | nil =>
    intro retval n _ _
    rfl
  | cons p ps ih =>
    intro retval n hsuf hnd
    obtain ⟨q, m⟩ := p
    have hqsuf : hasSuffix q listingSuffix = true := hsuf q (by simp)
    obtain ⟨t, rfl⟩ := (hasSuffix_iff q listingSuffix).mp hqsuf
    simp only [retval_fold, regexp_of_suffix]
    rw [NodupKeys, List.map_cons, List.nodup_cons] at hnd
    rw [ih _ n (fun p hp => hsuf p (List.mem_cons_of_mem _ hp)) hnd.2]
    by_cases hq : t = n
    · subst hq
      have hnone : dlookup ps (t ++ listingSuffix) = none := by
        cases hps : dlookup ps (t ++ listingSuffix) with
        | none => rfl
        | some w =>
          have hmem := List.mem_map_of_mem Prod.fst (dlookup_mem hps)
          exact absurd hmem hnd.1
      have hhead : dlookup ((t ++ listingSuffix, m) :: ps) (t ++ listingSuffix) = some m := by
        rw [dlookup, if_pos rfl]
      simp only [hhead, hnone]
      rw [dlookup_dinsert, if_pos rfl]
    · have hne : ¬ (t ++ listingSuffix, m).1 = n ++ listingSuffix := by
        intro hcontra
        exact hq (List.append_cancel_right hcontra)
      have hhead : dlookup ((t ++ listingSuffix, m) :: ps) (n ++ listingSuffix) =
          dlookup ps (n ++ listingSuffix) := by
        rw [dlookup, if_neg hne]
      cases hps : dlookup ps (n ++ listingSuffix) with
      | some w => simp only [hhead, hps]
      | none =>
        simp only [hhead, hps]
        rw [dlookup_dinsert, if_neg (fun hcontra => hq hcontra.symm)]

theorem dlookup_min_daily (rows : List TrafficRow) (ndays stop : Int) (name : List Char) :
    dlookup (_min_daily_pageviews_by_sr rows ndays stop) name =
      min_list (site_counts rows ndays stop name) := by
  rw [_min_daily_pageviews_by_sr]
  have hsuf : ∀ p, p ∈ (group_min_fold (listing_q rows ndays stop) []).map Prod.fst →
      hasSuffix p listingSuffix = true := by
    intro p hp
    rcases keys_group_min _ [] p hp with h1 | h2
    · simp at h1
    · obtain ⟨r, hr, rfl⟩ := h2
      rw [listing_q, List.mem_filter] at hr
      have hconj := hr.2
      simp only [Bool.and_eq_true] at hconj
      exact hconj.2
  rw [dlookup_retval_fold _ _ name hsuf
    (nodupKeys_group_min _ [] (by simp [NodupKeys]))]
  rw [dlookup_group_min, site_counts]
  cases hx : min_list (row_counts (name ++ listingSuffix) (listing_q rows ndays stop)) with
  | none => rfl
  | some w => rfl

/-- C7: the historical minimum aggregator returns, for a site name, exactly
the minimum pageview count of its qualifying rows (day rows of the inclusive
trailing window whose srpath is the name followed by the listing suffix); a
site has an entry exactly when it has at least one qualifying row, and a row
qualifies exactly when it is a day row of the window whose path carries the
listing suffix, other rows being silently excluded. -/
theorem c7_min_daily_aggregator (rows : List TrafficRow) (ndays stop : Int)
    (name : List Char) (m : Int) :
    (dlookup (_min_daily_pageviews_by_sr rows ndays stop) name = some m ↔
      (m ∈ site_counts rows ndays stop name ∧
        ∀ c ∈ site_counts rows ndays stop name, m ≤ c)) ∧
    ((dlookup (_min_daily_pageviews_by_sr rows ndays stop) name).isSome = true ↔
      site_counts rows ndays stop name ≠ []) ∧
    (∀ x, x ∈ site_counts rows ndays stop name ↔
      ∃ r, r ∈ rows ∧ r.interval = "day" ∧
        r.date ∈ get_time_points_day (stop - ndays) stop ∧
        r.srpath = name ++ listingSuffix ∧ r.pageview_count = x) := by
  refine ⟨?_, ?_, ?_⟩
  · rw [dlookup_min_daily]
    exact min_list_spec _ m
  · rw [dlookup_min_daily]
    exact min_list_isSome _
  · intro x
    rw [site_counts, row_counts, listing_q]
    simp only [List.mem_map, List.mem_filter, Bool.and_eq_true, decide_eq_true_eq]
    constructor
    · rintro ⟨r, ⟨⟨hr, ⟨hday, hdate⟩, _⟩, hpath⟩, hx⟩
      exact ⟨r, hr, hday, hdate, hpath, hx⟩
    · rintro ⟨r, hr, hday, hdate, hpath, hx⟩
      refine ⟨r, ⟨⟨hr, ⟨hday, hdate⟩, ?_⟩, hpath⟩, hx⟩
      rw [hpath]
      exact (hasSuffix_iff _ _).mpr ⟨name, rfl⟩

/- Concrete store states used to instantiate the theorems. -/

/-- A campaign selling 100 impressions over the ten days [0, 10). -/
def campW : Campaign :=
  { _id := 1, sr_name := "foo", start_date := 0, end_date := 10, ndays := 10,
    impressions := 100, trans_id := 7 }

/-- A store state with one authorized campaign on the site foo and a cached
minimum of 80 daily pageviews. -/
def envW : Env :=
  { promoMetrics := [("foo", 80)],
    promotionWeights := [{ sr_name := "foo", date := 0, promo_idx := 1 }],
    campaigns := [campW],
    bids := [{ transaction := 7, authed := true, charged := false }],
    defaultSRName := "frontpage" }

/-- envW with an empty bid store, so the campaign transaction has no record. -/
def envB : Env := { envW with bids := [] }

def retW3 : Buckets := [("foo", [(0, [campW]), (1, [campW]), (2, [campW])])]

def innerW3 : List (Int × List Campaign) := [(0, [campW]), (1, [campW]), (2, [campW])]

def soldW3 : List (String × List (Int × Int)) := [("foo", [(0, 10), (1, 10), (2, 10)])]

def retWA : List (String × List (Int × Int)) := [("foo", [(0, 70), (1, 70), (2, 70)])]

def availWS : List (String × Int) := [("0", 70), ("1", 70), ("2", 70)]

def soldC8 : List (String × List (Int × Int)) := [("frontpage", [(0, 10)])]

/-- Instantiation of the C1 theorem on the three day query over envW. -/
theorem c1_witness :
    ∃ inner v,
      dlookup retWA (srName envW (SR.named "foo")) = some inner ∧ dlookup inner 0 = some v ∧
      v = max 0 (predicted_daily envW (srName envW (SR.named "foo")) -
        sold_at soldW3 (srName envW (SR.named "foo")) 0) ∧
      0 ≤ v ∧
      (sold_at soldW3 (srName envW (SR.named "foo")) 0 ≤
          predicted_daily envW (srName envW (SR.named "foo")) →
        v = predicted_daily envW (srName envW (SR.named "foo")) -
          sold_at soldW3 (srName envW (SR.named "foo")) 0) :=
  c1_available_pageviews_max envW [SR.named "foo"] 0 3 none (SR.named "foo") soldW3 retWA 0
    (by decide) (by decide) (by decide)
    (by
      rw [get_available_pageviews_multi, get_available_pageviews_gen]
      simp only [get_predicted_pageviews_multi, predicted_daily_eq]
      decide)

/-- Instantiation of the C2 theorem: with request 75 every day of the range is
oversold at availability 70. -/
theorem c2_witness :
    (∀ k v, dlookup availWS k = some v ↔ (dlookup availWS k = some v ∧ v < 75)) ∧
    (∀ d, d ∈ get_date_range (0:Int) 3 → (dlookup availWS (date_strftime d)).isSome = true) ∧
    (∀ k, (dlookup availWS k).isSome = true →
      ∃ d, d ∈ get_date_range (0:Int) 3 ∧ k = date_strftime d) :=
  c2_oversold_exact envW (SR.named "foo") 0 3 75 none availWS availWS
    (by
      rw [get_available_pageviews_str_single, get_available_pageviews_gen]
      simp only [get_predicted_pageviews_multi, predicted_daily_eq]
      decide)
    (by
      rw [get_oversold, get_available_pageviews_str_single, get_available_pageviews_gen]
      simp only [get_predicted_pageviews_multi, predicted_daily_eq]
      decide)

/-- Instantiation of the C3 theorem on envW: 100 impressions over 10 days give
10 per day and 10 days times 10 is at most 100. -/
theorem c3_witness :
    (∀ d, d ∈ get_date_range campW.start_date campW.end_date →
      d ∈ get_date_range 0 3 →
      ∃ b, dlookup innerW3 d = some b ∧ countOcc campW b = 1 ∧
        (∀ sold, get_sold_pageviews_multi envW [SR.named "foo"] 0 3 none = Except.ok sold →
          ∃ soldInner, dlookup sold (resolved_sr_name envW campW) = some soldInner ∧
            dlookup soldInner d = some ((b.map daily_impressions).sum))) ∧
    (campW.ndays = ((get_date_range campW.start_date campW.end_date).length : Int) →
      ((get_date_range campW.start_date campW.end_date).length : Int) *
          daily_impressions campW ≤ campW.impressions) :=
  c3_daily_attribution envW [SR.named "foo"] 0 3 none retW3 campW innerW3
    (by decide) (by decide) (by decide) (by decide) (by decide)

/-- Instantiation of the C4 theorem on the bucket of day 0 over envW. -/
theorem c4_witness :
    campW.trans_id ≠ NO_TRANSACTION ∧ 0 < campW.impressions ∧
      (∃ bid, bid ∈ envW.bids ∧ bid.transaction = campW.trans_id ∧
        (bid.is_auth = true ∨ bid.is_charged = true)) ∧
      (0:Int) ∈ get_date_range campW.start_date campW.end_date ∧
      (0:Int) ∈ get_date_range 0 3 :=
  c4_bucket_necessary_conditions envW [SR.named "foo"] 0 3 none retW3 "foo" innerW3 0
    [campW] campW (by decide) (by decide) (by decide) (by decide)

/-- Instantiation of the C5 theorem over envW. -/
theorem c5_witness :
    (∃ flat, dlookup retW3 (srName envW (SR.named "foo")) = some flat ∧
      get_campaigns_by_date_single envW (SR.named "foo") 0 3 none = Except.ok flat) ∧
    (∃ flat, dlookup soldW3 (srName envW (SR.named "foo")) = some flat ∧
      get_sold_pageviews_single envW (SR.named "foo") 0 3 none = Except.ok flat) ∧
    (∃ flat, dlookup (get_predicted_pageviews_multi envW [SR.named "foo"] 0 3)
        (srName envW (SR.named "foo")) = some flat ∧
      get_predicted_pageviews_single envW (SR.named "foo") 0 3 = some flat) ∧
    (∃ flat, dlookup retWA (srName envW (SR.named "foo")) = some flat ∧
      get_available_pageviews_single envW (SR.named "foo") 0 3 none = Except.ok flat) := by
  have h := c5_single_bulk_symmetry envW (SR.named "foo") 0 3 none
  refine ⟨h.1 retW3 (by decide), h.2.1 soldW3 (by decide), h.2.2.1, h.2.2.2 retWA ?_⟩
  rw [get_available_pageviews_multi, get_available_pageviews_gen]
  simp only [get_predicted_pageviews_multi, predicted_daily_eq]
  decide

/-- Instantiation of the C6 theorem over envW: 80 predicted on each of the
three days of the range. -/
theorem c6_witness :
    ∃ inner,
      dlookup (get_predicted_pageviews_multi envW [SR.named "foo"] 0 3)
        (srName envW (SR.named "foo")) = some inner ∧
      (∀ d, dlookup inner d =
        if (0:Int) ≤ d ∧ d < 3 then
          some (pyInt ((((dlookup envW.promoMetrics
            (srName envW (SR.named "foo"))).getD 0 : Int) : ℚ) * INVENTORY_FACTOR))
        else none) ∧
      ((get_date_range (0:Int) 3).length : Int) = 3 - 0 ∧
      (∀ d, d ∈ get_date_range (0:Int) 3 ↔ (0:Int) ≤ d ∧ d < 3) :=
  c6_predicted_pageviews_constant envW [SR.named "foo"] 0 3 (SR.named "foo")
    (by decide) (by decide)

/-- Instantiation of the C8 amended theorem on the default site query. -/
theorem c8_amended_witness :
    (∀ n, (dlookup soldC8 n).isSome = true ↔ n ∈ [SR.defaultSR].map (srName envC8)) ∧
    (∀ n, (dlookup (get_predicted_pageviews_multi envC8 [SR.defaultSR] 0 1) n).isSome = true ↔
      n ∈ [SR.defaultSR].map (srName envC8)) ∧
    (SR.defaultSR ∈ [SR.defaultSR] → "" ∈ [SR.defaultSR].map srKey) ∧
    srKey SR.defaultSR = "" :=
  c8_amended_default_site_keys envC8 [SR.defaultSR] 0 1 none soldC8 (by decide)

/-- Instantiation of the C10 theorem: with a full bid store no integer keyed
KeyError arises, and with an empty bid store the call fails. -/
theorem c10_witness :
    get_campaigns_by_date_multi envW [SR.named "foo"] 0 3 none ≠
      Except.error (PyErr.keyErrI 5) ∧
    (∃ err, get_campaigns_by_date_multi envB [SR.named "foo"] 0 3 none = Except.error err) :=
  ⟨(c10_transaction_lookup envW [SR.named "foo"] 0 3 none).1 (by decide) 5,
   (c10_transaction_lookup envB [SR.named "foo"] 0 3 none).2 campW (by decide) (by decide)
     (by decide) (by decide)⟩
